import Mathlib

set_option maxRecDepth 8192

/-!
Verification of the btreloaded backtest engine.

The engine's numeric pipeline runs on IEEE-754 doubles under numpy/pandas
semantics.  We embed values as `PFloat`: either NaN, one of the two
infinities, or an exact rational.  Exact rationals stand in for finite
doubles (the spec states all arithmetic exactly, and every claim below is
about exact values, signs, NaN-ness or infinities, never about rounding).
Comparisons follow IEEE: any comparison with NaN is false, hence
`x != y` (python) is true whenever either side is NaN.

A pandas Series is embedded as a function `ℕ → PFloat` from bar index to
value (all series in the engine share one date index), together with an
explicit bar count where a whole-series reduction is taken.  Trading dates
are embedded as a function `ℕ → ℤ` giving the ordinal day of each bar, so
`(date_i - date_j).days` becomes integer subtraction.
-/

inductive PFloat where
  | nan : PFloat
  | pinf : PFloat
  | ninf : PFloat
  | val : ℚ → PFloat
deriving DecidableEq

namespace PFloat

/-- NaN test, python `pd.isna`. -/
def isna : PFloat → Bool
  | nan => true
  | _ => false

/-- true for finite (rational) values only. -/
def isFinite : PFloat → Bool
  | val _ => true
  | _ => false

/-- IEEE addition. -/
def add : PFloat → PFloat → PFloat
  | nan, _ => nan
  | _, nan => nan
  | pinf, ninf => nan
  | ninf, pinf => nan
  | pinf, _ => pinf
  | _, pinf => pinf
  | ninf, _ => ninf
  | _, ninf => ninf
  | val a, val b => val (a + b)

/-- IEEE negation. -/
def neg : PFloat → PFloat
  | nan => nan
  | pinf => ninf
  | ninf => pinf
  | val a => val (-a)

/-- IEEE subtraction. -/
def sub (a b : PFloat) : PFloat := add a (neg b)

/-- IEEE multiplication (`0 × ∞ = NaN`). -/
def mul : PFloat → PFloat → PFloat
  | nan, _ => nan
  | _, nan => nan
  | pinf, pinf => pinf
  | pinf, ninf => ninf
  | ninf, pinf => ninf
  | ninf, ninf => pinf
  | pinf, val b => if 0 < b then pinf else if b < 0 then ninf else nan
  | val a, pinf => if 0 < a then pinf else if a < 0 then ninf else nan
  | ninf, val b => if 0 < b then ninf else if b < 0 then pinf else nan
  | val a, ninf => if 0 < a then ninf else if a < 0 then pinf else nan
  | val a, val b => val (a * b)

/-- IEEE division under numpy semantics: a finite nonzero value divided by
zero is a signed infinity, `0/0 = ∞/∞ = NaN` (numpy emits a warning, not an
exception). -/
def div : PFloat → PFloat → PFloat
  | nan, _ => nan
  | _, nan => nan
  | pinf, pinf => nan
  | pinf, ninf => nan
  | ninf, pinf => nan
  | ninf, ninf => nan
  | pinf, val b => if b < 0 then ninf else pinf
  | ninf, val b => if b < 0 then pinf else ninf
  | val _, pinf => val 0
  | val _, ninf => val 0
  | val a, val b =>
      if b = 0 then (if 0 < a then pinf else if a < 0 then ninf else nan)
      else val (a / b)

/-- IEEE absolute value. -/
def abs : PFloat → PFloat
  | nan => nan
  | pinf => pinf
  | ninf => pinf
  | val a => val |a|

instance : Add PFloat := ⟨add⟩
instance : Sub PFloat := ⟨sub⟩
instance : Mul PFloat := ⟨mul⟩
instance : Div PFloat := ⟨div⟩
instance : Neg PFloat := ⟨neg⟩

/-- IEEE `<` as evaluated by python/numpy: false when either side is NaN. -/
def pyLt : PFloat → PFloat → Bool
  | nan, _ => false
  | _, nan => false
  | pinf, _ => false
  | ninf, ninf => false
  | ninf, _ => true
  | val _, pinf => true
  | val _, ninf => false
  | val a, val b => a < b

/-- python `>`. -/
def pyGt (a b : PFloat) : Bool := pyLt b a

/-- IEEE equality as evaluated by python `==`: false when either side is NaN. -/
def pyEq : PFloat → PFloat → Bool
  | nan, _ => false
  | _, nan => false
  | pinf, pinf => true
  | ninf, ninf => true
  | val a, val b => a = b
  | _, _ => false

/-- python `!=`: true whenever either side is NaN. -/
def pyNe (a b : PFloat) : Bool := !(pyEq a b)

/-- binary max on non-NaN floats (python/pandas max). -/
def pfMax (a b : PFloat) : PFloat := if pyLt a b then b else a

/-- binary min on non-NaN floats. -/
def pfMin (a b : PFloat) : PFloat := if pyLt b a then b else a

/-- pandas `Series.clip(lo, hi)` on one element: lower bound applied, then
upper bound; NaN passes through, `±∞` clips to the bounds. -/
def clip (lo hi : ℚ) : PFloat → PFloat
  | nan => nan
  | pinf => val hi
  | ninf => val (min hi lo)
  | val q => val (min hi (max lo q))

/-- square root: NaN on negative or NaN input, `+∞ ↦ +∞`.  On nonnegative
rationals we use `Rat.sqrt` as the stand-in for the irrational real root;
no claim below depends on its value except at perfect squares (notably 0). -/
def sqrtP : PFloat → PFloat
  | nan => nan
  | pinf => pinf
  | ninf => nan
  | val q => if q < 0 then nan else val (Rat.sqrt q)

/-- sum of a list of floats (IEEE addition, left fold from `0.0`). -/
def sum (l : List PFloat) : PFloat := l.foldl add (val 0)

/-- python `round(x, 2)` with banker's rounding on the scaled value; NaN and
infinities pass through as in python. -/
def round2 : PFloat → PFloat
  | nan => nan
  | pinf => pinf
  | ninf => ninf
  | val q =>
      let x := q * 100
      let f : ℤ := x.floor
      let r : ℚ := x - f
      let n : ℤ :=
        if r < 1/2 then f else if 1/2 < r then f + 1 else if f % 2 = 0 then f else f + 1
      val (n / 100)

end PFloat

/-! ### Series operations (pandas semantics) -/

/-- `Series.shift(1)`: NaN at the first bar. -/
def shift1 (x : ℕ → PFloat) (t : ℕ) : PFloat :=
  if t = 0 then PFloat.nan else x (t - 1)

/-- `Series.pct_change(k)` (no forward-fill — the engine passes
`fill_method=None` where NaN inputs can occur; for NaN-free inputs the
pandas default is identical): NaN on the first `k` bars, else
`x_t / x_{t-k} - 1`. -/
def pct_change (k : ℕ) (x : ℕ → PFloat) (t : ℕ) : PFloat :=
  if t < k then PFloat.nan else PFloat.sub (PFloat.div (x t) (x (t - k))) (PFloat.val 1)

/-- the `w` values ending at bar `t` (ascending), as seen by `rolling(w)`. -/
def rwindow (w : ℕ) (x : ℕ → PFloat) (t : ℕ) : List PFloat :=
  (List.range w).map fun i => x (t + 1 - w + i)

/-- `rolling(w).mean()`: NaN until the window is filled and whenever the
window contains a NaN (`min_periods` defaults to the window size and counts
non-NaN observations only), else the IEEE mean of the window. -/
def rollingMean (w : ℕ) (x : ℕ → PFloat) (t : ℕ) : PFloat :=
  if w = 0 ∨ t + 1 < w ∨ (rwindow w x t).any PFloat.isna = true then PFloat.nan
  else PFloat.div (PFloat.sum (rwindow w x t)) (PFloat.val w)

/-- sample variance (ddof = 1) of a list of rationals, divisor `w - 1`. -/
def sampleVar (l : List ℚ) (w : ℕ) : ℚ :=
  let m : ℚ := l.sum / l.length
  (l.map fun a => (a - m) ^ 2).sum / ((w : ℚ) - 1)

/-- the finite (rational) values of a list of floats. -/
def toRats (l : List PFloat) : List ℚ :=
  l.filterMap fun v => match v with | PFloat.val q => some q | _ => none

/-- `rolling(w).std()` (sample std, ddof = 1): NaN for window size ≤ 1, until
the window is filled, and whenever the window contains a NaN or an infinity
(an infinite observation makes `x - mean = ∞ - ∞ = NaN`), else the square
root of the sample variance. -/
def rollingStd (w : ℕ) (x : ℕ → PFloat) (t : ℕ) : PFloat :=
  if w ≤ 1 ∨ t + 1 < w ∨ (rwindow w x t).any (fun v => !v.isFinite) = true then PFloat.nan
  else PFloat.val (Rat.sqrt (sampleVar (toRats (rwindow w x t)) w))

/-- `rolling(w).max()`: NaN until the window is filled or on any NaN in it. -/
def rollingMax (w : ℕ) (x : ℕ → PFloat) (t : ℕ) : PFloat :=
  if w = 0 ∨ t + 1 < w ∨ (rwindow w x t).any PFloat.isna = true then PFloat.nan
  else
    match rwindow w x t with
    | [] => PFloat.nan
    | h :: r => r.foldl PFloat.pfMax h

/-- `rolling(w).min()`. -/
def rollingMin (w : ℕ) (x : ℕ → PFloat) (t : ℕ) : PFloat :=
  if w = 0 ∨ t + 1 < w ∨ (rwindow w x t).any PFloat.isna = true then PFloat.nan
  else
    match rwindow w x t with
    | [] => PFloat.nan
    | h :: r => r.foldl PFloat.pfMin h

/-- row-wise `max` over three columns with pandas `skipna`: NaN entries are
dropped; all-NaN rows give NaN. -/
def max3skipna (a b c : PFloat) : PFloat :=
  match ([a, b, c]).filter (fun v => !v.isna) with
  | [] => PFloat.nan
  | h :: r => r.foldl PFloat.pfMax h

/-- pandas `Series.mean()` (skipna): NaN when no non-NaN values exist. -/
def mean_skipna (l : List PFloat) : PFloat :=
  let xs := l.filter fun v => !v.isna
  if xs.length = 0 then PFloat.nan else PFloat.div (PFloat.sum xs) (PFloat.val xs.length)

/-- pandas `Series.sum()` (skipna, empty sum is 0.0). -/
def sum_skipna (l : List PFloat) : PFloat :=
  PFloat.sum (l.filter fun v => !v.isna)

/-- `np.mean` without skipna (empty list gives `0/0 = NaN`). -/
def mean_plain (l : List PFloat) : PFloat :=
  PFloat.div (PFloat.sum l) (PFloat.val l.length)

/-- pandas `Series.std()` (skipna, ddof = 1): NaN when fewer than two non-NaN
values remain or an infinity is present. -/
def std_skipna (l : List PFloat) : PFloat :=
  let xs := l.filter fun v => !v.isna
  if xs.length ≤ 1 ∨ xs.any (fun v => !v.isFinite) = true then PFloat.nan
  else PFloat.val (Rat.sqrt (sampleVar (toRats xs) xs.length))

/-- pandas `Series.min()` (skipna): NaN when no non-NaN values exist. -/
def min_skipna (l : List PFloat) : PFloat :=
  match l.filter (fun v => !v.isna) with
  | [] => PFloat.nan
  | h :: r => r.foldl PFloat.pfMin h

/-- `Series.expanding().max()` (skipna): running max of the non-NaN values
seen so far, NaN while none have been seen. -/
def expanding_max (l : List PFloat) : List PFloat :=
  (l.foldl
    (fun (p : PFloat × List PFloat) x =>
      let best := if x.isna then p.1 else if p.1.isna then x else PFloat.pfMax p.1 x
      (best, p.2 ++ [best]))
    (PFloat.nan, [])).2

/-- `Series.pct_change()` of a materialized series (the element at index 0,
a NaN, is the one `dropna` removes). -/
def pct_change_list (l : List PFloat) : List PFloat :=
  List.zipWith (fun cur prev => PFloat.sub (PFloat.div cur prev) (PFloat.val 1)) (l.drop 1) l

/-- `Series.dropna()`. -/
def dropna (l : List PFloat) : List PFloat := l.filter fun v => !v.isna

/-- mean over the first `n` bars of a series (pandas `Series.mean()`). -/
def series_mean (n : ℕ) (x : ℕ → PFloat) : PFloat :=
  mean_skipna ((List.range n).map x)

/-! ### Rule library (`src/utils/rule_implementations.py`)

Each rule maps a price series and parameters to a per-bar raw signal in
`{-1, 0, 1}`.  The python code initializes the signal to 0, then assigns 1
on one boolean mask and -1 on another; where the masks overlap the later
assignment (-1) wins, so each rule is embedded as
`if mask_neg then -1 else if mask_pos then 1 else 0`.
Each embedding gives the signal of one bar `t`. -/

/-- `calculate_zscore_momentum`. -/
def calculate_zscore_momentum (lookback : ℕ) (threshold : ℚ)
    (close : ℕ → PFloat) (t : ℕ) : ℚ :=
  let ret := pct_change lookback close
  let z := PFloat.div (PFloat.sub (ret t) (rollingMean lookback ret t))
    (rollingStd lookback ret t)
  if PFloat.pyLt z (PFloat.val (-threshold)) then -1
  else if PFloat.pyGt z (PFloat.val threshold) then 1
  else 0

/-- `calculate_roc`. -/
def calculate_roc (lookback : ℕ) (threshold : ℚ) (close : ℕ → PFloat) (t : ℕ) : ℚ :=
  let roc := PFloat.mul (pct_change lookback close t) (PFloat.val 100)
  if PFloat.pyLt roc (PFloat.val (-threshold)) then -1
  else if PFloat.pyGt roc (PFloat.val threshold) then 1
  else 0

/-- `calculate_channel_breakout`. -/
def calculate_channel_breakout (lookback : ℕ) (channel_width : ℚ)
    (high low close : ℕ → PFloat) (t : ℕ) : ℚ :=
  let rhigh := rollingMax lookback high t
  let rlow := rollingMin lookback low t
  let mid := PFloat.div (PFloat.add rhigh rlow) (PFloat.val 2)
  let rng := PFloat.sub rhigh rlow
  let upper := PFloat.add mid (PFloat.div (PFloat.mul (PFloat.val channel_width) rng) (PFloat.val 2))
  let lower := PFloat.sub mid (PFloat.div (PFloat.mul (PFloat.val channel_width) rng) (PFloat.val 2))
  if PFloat.pyLt (close t) lower then -1
  else if PFloat.pyGt (close t) upper then 1
  else 0

/-- `calculate_support_resistance`. -/
def calculate_support_resistance (lookback : ℕ) (threshold : ℚ)
    (high low close : ℕ → PFloat) (t : ℕ) : ℚ :=
  let rhigh := rollingMax lookback high t
  let rlow := rollingMin lookback low t
  let dist_from_high := PFloat.div (PFloat.sub rhigh (close t)) (close t)
  let dist_from_low := PFloat.div (PFloat.sub (close t) rlow) (close t)
  if PFloat.pyLt dist_from_low (PFloat.val (threshold / 100)) then -1
  else if PFloat.pyLt dist_from_high (PFloat.val (threshold / 100)) then 1
  else 0

/-- `calculate_sma_crossover`. -/
def calculate_sma_crossover (fast_period slow_period : ℕ)
    (close : ℕ → PFloat) (t : ℕ) : ℚ :=
  let fast_sma := rollingMean fast_period close t
  let slow_sma := rollingMean slow_period close t
  if PFloat.pyLt fast_sma slow_sma then -1
  else if PFloat.pyGt fast_sma slow_sma then 1
  else 0

/-- `Series.ewm(span, adjust=False).mean()`: standard exponential smoothing
seeded at the first observation (pandas additionally skips NaN inputs,
which no claim exercises; the embedding propagates them). -/
def ewm_mean (span : ℕ) (x : ℕ → PFloat) : ℕ → PFloat
  | 0 => x 0
  | t + 1 =>
      let a : ℚ := 2 / ((span : ℚ) + 1)
      PFloat.add (PFloat.mul (PFloat.val a) (x (t + 1)))
        (PFloat.mul (PFloat.val (1 - a)) (ewm_mean span x t))

/-- `calculate_ema_crossover`. -/
def calculate_ema_crossover (fast_period slow_period : ℕ)
    (close : ℕ → PFloat) (t : ℕ) : ℚ :=
  let fast_ema := ewm_mean fast_period close t
  let slow_ema := ewm_mean slow_period close t
  if PFloat.pyLt fast_ema slow_ema then -1
  else if PFloat.pyGt fast_ema slow_ema then 1
  else 0

/-- the true range used by `calculate_atr_breakout` and by the equal-risk
sizer: row max over `high-low`, `|high - prev close|`, `|low - prev close|`
with pandas skipna (on the first bar only `high-low` is non-NaN). -/
def true_range (high low close : ℕ → PFloat) (t : ℕ) : PFloat :=
  max3skipna (PFloat.sub (high t) (low t))
    (PFloat.abs (PFloat.sub (high t) (shift1 close t)))
    (PFloat.abs (PFloat.sub (low t) (shift1 close t)))

/-- `calculate_atr_breakout`. -/
def calculate_atr_breakout (lookback : ℕ) (multiplier : ℚ)
    (high low close : ℕ → PFloat) (t : ℕ) : ℚ :=
  let atr := rollingMean lookback (true_range high low close) t
  let middle := rollingMean lookback close t
  let upper := PFloat.add middle (PFloat.mul (PFloat.val multiplier) atr)
  let lower := PFloat.sub middle (PFloat.mul (PFloat.val multiplier) atr)
  if PFloat.pyLt (close t) lower then -1
  else if PFloat.pyGt (close t) upper then 1
  else 0

/-- annualized rolling volatility `returns.rolling(l).std() * sqrt(252)`,
shared by `calculate_volatility_regime` and the volatility sizers.  The
positive constant `ann` stands for the irrational `sqrt(252)`; every claim
below only uses that multiplying by it preserves NaN, zero and sign. -/
def vol_estimate (lookback : ℕ) (ann : ℚ) (close : ℕ → PFloat) (t : ℕ) : PFloat :=
  PFloat.mul (rollingStd lookback (pct_change 1 close) t) (PFloat.val ann)

/-- `calculate_volatility_regime`. -/
def calculate_volatility_regime (lookback : ℕ) (threshold ann : ℚ)
    (close : ℕ → PFloat) (t : ℕ) : ℚ :=
  let vol := vol_estimate lookback ann close
  let avg_vol := rollingMean lookback vol t
  if PFloat.pyGt (vol t) (PFloat.mul avg_vol (PFloat.val threshold)) then -1
  else if PFloat.pyLt (vol t) (PFloat.div avg_vol (PFloat.val threshold)) then 1
  else 0

/-! ### Signal composer (`StrategyAgent._generate_signal_code`)

The generated `calculate_signals` works elementwise on series; we embed one
bar.  A category is a pair (category weight, list of rules); a rule at this
bar is a pair (rule weight, raw signal value). -/

/-- `np.sign` on a rational. -/
def np_sign (x : ℚ) : ℚ := if 0 < x then 1 else if x < 0 then -1 else 0

/-- one category's re-quantized signal: the sign of the weighted sum of its
rules' raw signals (`category_signal += rule_signal * rule_weight`, then
`np.sign`). -/
def category_signal (rules : List (ℚ × ℚ)) : ℚ :=
  np_sign (rules.foldl (fun acc r => acc + r.2 * r.1) 0)

/-- `total_weight`: the sum of the category weights. -/
def total_weight (cats : List (ℚ × List (ℚ × ℚ))) : ℚ :=
  cats.foldl (fun acc c => acc + c.1) 0

/-- `final_signal` before normalization: Σ category_signal × category_weight. -/
def weighted_signal_sum (cats : List (ℚ × List (ℚ × ℚ))) : ℚ :=
  cats.foldl (fun acc c => acc + category_signal c.2 * c.1) 0

/-- the generated `calculate_signals` at one bar: divide by `total_weight`
only when it is positive. -/
def calculate_signals (cats : List (ℚ × List (ℚ × ℚ))) : ℚ :=
  if 0 < total_weight cats then weighted_signal_sum cats / total_weight cats
  else weighted_signal_sum cats

/-! ### Position sizing (`StrategyAgent._generate_position_sizing_code`)

The generated `calculate_position_sizes` functions, embedded per bar over
the whole series. -/

/-- `volatility_targeting`: `signals * (target_vol / vol)` clipped to
`[-max_size, max_size]`. -/
def volatility_targeting_positions (lookback : ℕ) (ann target_vol max_size : ℚ)
    (close sig : ℕ → PFloat) (t : ℕ) : PFloat :=
  PFloat.clip (-max_size) max_size
    (PFloat.mul (sig t) (PFloat.div (PFloat.val target_vol) (vol_estimate lookback ann close t)))

/-- `fixed_percentage`: `signals * position_size`. -/
def fixed_percentage_positions (position_size : ℚ) (sig : ℕ → PFloat) (t : ℕ) : PFloat :=
  PFloat.mul (sig t) (PFloat.val position_size)

/-- the ATR of the equal-risk sizer: rolling mean of the true range. -/
def atr_estimate (atr_periods : ℕ) (high low close : ℕ → PFloat) (t : ℕ) : PFloat :=
  rollingMean atr_periods (true_range high low close) t

/-- `equal_risk`: `signals * (risk_per_trade / (atr / close))` (no clip). -/
def equal_risk_positions (atr_periods : ℕ) (risk_per_trade : ℚ)
    (high low close sig : ℕ → PFloat) (t : ℕ) : PFloat :=
  PFloat.mul (sig t)
    (PFloat.div (PFloat.val risk_per_trade)
      (PFloat.div (atr_estimate atr_periods high low close t) (close t)))

/-- `inverse_volatility`: `signals * (1/vol)`, normalized by `vol.mean()`
over the `n` bars, clipped to `[-max_size, max_size]`. -/
def inverse_volatility_positions (n lookback : ℕ) (ann max_size : ℚ)
    (close sig : ℕ → PFloat) (t : ℕ) : PFloat :=
  PFloat.clip (-max_size) max_size
    (PFloat.div
      (PFloat.mul (sig t) (PFloat.div (PFloat.val 1) (vol_estimate lookback ann close t)))
      (series_mean n (vol_estimate lookback ann close)))

/-- the Kelly fraction `(b·p − q)/b`. -/
def kelly_fraction (win_rate pr : ℚ) : ℚ := (pr * win_rate - (1 - win_rate)) / pr

/-- `kelly_criterion`: `signals * min(kelly_fraction * 0.5, max_size)`. -/
def kelly_criterion_positions (win_rate pr max_size : ℚ)
    (sig : ℕ → PFloat) (t : ℕ) : PFloat :=
  PFloat.mul (sig t) (PFloat.val (min (kelly_fraction win_rate pr * (1 / 2)) max_size))

/-! ### Trade generator (`BacktestAgent._generate_trades`) -/

/-- one emitted trade: bar index, fill price, size (Δposition), direction
(`isBuy` = python `'BUY'`), resulting position, realized pnl, hold time in
days. -/
structure TradeRec where
  bar : ℕ
  price : PFloat
  size : PFloat
  isBuy : Bool
  position : PFloat
  pnl : PFloat
  hold_time : ℤ
deriving DecidableEq

/-- the generator's loop state: current position (a python float; initially
the int 0, which compares like 0.0), entry price/date, and the trades
accumulated so far. -/
structure TGState where
  current_position : PFloat
  entry_price : PFloat
  entry_date : ℤ
  acc : List TradeRec
deriving DecidableEq

/-- one iteration of the `for date, position in positions.items()` loop.
All comparisons are python float comparisons (`pyNe`, `pyGt`), so a NaN
position always enters the `position != current_position` branch. -/
def trade_step (dates : ℕ → ℤ) (close pos : ℕ → PFloat) (t : ℕ) (s : TGState) : TGState :=
  if PFloat.pyNe (pos t) s.current_position then
    let pnl := if PFloat.pyNe s.current_position (PFloat.val 0)
      then PFloat.mul (PFloat.sub (close t) s.entry_price) s.current_position
      else PFloat.val 0
    let hold : ℤ := if PFloat.pyNe s.current_position (PFloat.val 0)
      then dates t - s.entry_date else 0
    let tr : TradeRec :=
      ⟨t, close t, PFloat.sub (pos t) s.current_position,
        PFloat.pyGt (pos t) s.current_position, pos t, pnl, hold⟩
    if PFloat.pyNe (pos t) (PFloat.val 0) then
      ⟨pos t, close t, dates t, s.acc ++ [tr]⟩
    else
      ⟨pos t, s.entry_price, s.entry_date, s.acc ++ [tr]⟩
  else s

/-- `_generate_trades` over `n` bars.  The initial entry price is unset in
python (`None`); it is embedded as NaN, and is provably never read before
being set. -/
def generate_trades (n : ℕ) (dates : ℕ → ℤ) (close pos : ℕ → PFloat) : List TradeRec :=
  ((List.range n).foldl (fun s t => trade_step dates close pos t s)
    ⟨PFloat.val 0, PFloat.nan, 0, []⟩).acc

/-! ### Equity simulator (`BacktestAgent._calculate_equity_curve`) -/

/-- `data['Close'].pct_change(fill_method=None).fillna(0)`: note that
`fillna(0)` replaces every NaN return (mid-series ones included), not just
the first bar's. -/
def returns_filled (close : ℕ → PFloat) (t : ℕ) : PFloat :=
  if (pct_change 1 close t).isna then PFloat.val 0 else pct_change 1 close t

/-- the equity curve: 1.0 at bar 0; frozen when the position or the filled
return is NaN, else compounded by `position × return`. -/
def calculate_equity_curve (close pos : ℕ → PFloat) : ℕ → PFloat
  | 0 => PFloat.val 1
  | t + 1 =>
      if (pos (t + 1)).isna || (returns_filled close (t + 1)).isna then
        calculate_equity_curve close pos t
      else
        PFloat.mul (calculate_equity_curve close pos t)
          (PFloat.add (PFloat.val 1) (PFloat.mul (pos (t + 1)) (returns_filled close (t + 1))))

/-! ### Performance analyzer (`src/agents/performance_agent.py`) -/

/-- a row of the trades DataFrame as `analyze_trades` reads it. -/
structure ATrade where
  pnl : PFloat
  hold_time : PFloat
deriving DecidableEq

/-- the trade statistics record. -/
structure TradeStats where
  total_trades : ℕ
  win_rate : PFloat
  avg_win : PFloat
  avg_loss : PFloat
  profit_factor : PFloat
  avg_hold_time : PFloat
deriving DecidableEq

/-- `PerformanceAgent.analyze_trades`. -/
def analyze_trades (trades : List ATrade) : TradeStats :=
  if trades.length = 0 then
    ⟨0, PFloat.val 0, PFloat.val 0, PFloat.val 0, PFloat.val 0, PFloat.val 0⟩
  else
    let winning := trades.filter fun tr => PFloat.pyGt tr.pnl (PFloat.val 0)
    let losing := trades.filter fun tr => PFloat.pyLt tr.pnl (PFloat.val 0)
    { total_trades := trades.length
      win_rate := PFloat.val ((winning.length : ℚ) / (trades.length : ℚ) * 100)
      avg_win := if 0 < winning.length then mean_skipna (winning.map ATrade.pnl)
        else PFloat.val 0
      avg_loss := if 0 < losing.length then mean_skipna (losing.map ATrade.pnl)
        else PFloat.val 0
      profit_factor :=
        if 0 < losing.length ∧
            PFloat.pyNe (sum_skipna (losing.map ATrade.pnl)) (PFloat.val 0) = true then
          PFloat.abs (PFloat.div (sum_skipna (winning.map ATrade.pnl))
            (sum_skipna (losing.map ATrade.pnl)))
        else PFloat.pinf
      avg_hold_time := mean_skipna (trades.map ATrade.hold_time) }

/-- the metrics record of `calculate_metrics`. -/
structure Metrics where
  total_return : PFloat
  annual_return : PFloat
  volatility : PFloat
  sharpe : PFloat
  max_drawdown : PFloat
  calmar : PFloat
  sortino : PFloat
deriving DecidableEq

/-- `PerformanceAgent.calculate_sortino` on the (already dropna'd) returns.
`ann` again stands for `sqrt(252)`. -/
def calculate_sortino (ann : ℚ) (returns : List PFloat) : PFloat :=
  if returns.length = 0 then PFloat.val 0
  else
    let downside := returns.filter fun r => PFloat.pyLt r (PFloat.val 0)
    if downside.length = 0 then PFloat.pinf
    else
      let downside_std :=
        PFloat.mul (PFloat.val ann) (PFloat.sqrtP (mean_plain (downside.map fun r => PFloat.mul r r)))
      PFloat.div (PFloat.mul (mean_skipna returns) (PFloat.val 252)) downside_std

/-- `PerformanceAgent.calculate_metrics`.  The `try/except` falls into the
all-zero record exactly when an exception is raised inside the body, and on
the embedded operations the only raising one is `iloc` on an empty curve —
every numeric edge (mean/std of an empty frame, 0-division) yields NaN or
infinity in pandas, not an exception. -/
def calculate_metrics (ann : ℚ) (eq : List PFloat) : Metrics :=
  if eq.length = 0 then
    ⟨PFloat.val 0, PFloat.val 0, PFloat.val 0, PFloat.val 0,
      PFloat.val 0, PFloat.val 0, PFloat.val 0⟩
  else
    let returns := dropna (pct_change_list eq)
    let total_return :=
      PFloat.mul (PFloat.sub (PFloat.div (eq.getLastD PFloat.nan) (eq.headD PFloat.nan)) (PFloat.val 1))
        (PFloat.val 100)
    let annual_return := PFloat.mul (PFloat.mul (mean_skipna returns) (PFloat.val 252)) (PFloat.val 100)
    let volatility := PFloat.mul (PFloat.mul (std_skipna returns) (PFloat.val ann)) (PFloat.val 100)
    let sharpe := if PFloat.pyNe volatility (PFloat.val 0) then PFloat.div annual_return volatility
      else PFloat.val 0
    let max_drawdown :=
      PFloat.mul
        (min_skipna (List.zipWith (fun e m => PFloat.sub (PFloat.div e m) (PFloat.val 1))
          eq (expanding_max eq)))
        (PFloat.val 100)
    let calmar := if PFloat.pyNe max_drawdown (PFloat.val 0) then
        PFloat.abs (PFloat.div annual_return max_drawdown)
      else PFloat.val 0
    ⟨PFloat.round2 total_return, PFloat.round2 annual_return, PFloat.round2 volatility,
      PFloat.round2 sharpe, PFloat.round2 max_drawdown, PFloat.round2 calmar,
      PFloat.round2 (calculate_sortino ann returns)⟩

/-! ### Backtest orchestration (`BacktestAgent.run_backtest`) -/

/-- one symbol's price table: bar count, ordinal dates, and the close series
(the columns the orchestrated pipeline reads). -/
structure PriceTable where
  n : ℕ
  dates : ℕ → ℤ
  close : ℕ → PFloat

/-- the success payload of `run_backtest`. -/
structure BTResult where
  trades : List TradeRec
  equity_curve : List PFloat
  positions : List PFloat

/-- `run_backtest`: takes the FIRST symbol of the data mapping
(`symbol = list(data.keys())[0]`) and runs the pipeline on it alone.  The
strategy's generated signal and sizing code are passed as the functions
`sig` and `siz` (the python exec of generated source).  An empty mapping
raises and is caught as an error result (`none`). -/
def run_backtest (sig : PriceTable → ℕ → PFloat)
    (siz : PriceTable → (ℕ → PFloat) → ℕ → PFloat)
    (data : List (String × PriceTable)) : Option BTResult :=
  match data with
  | [] => none
  | (_, df) :: _ =>
      let signals := sig df
      let pos := siz df signals
      some ⟨generate_trades df.n df.dates df.close pos,
        (List.range df.n).map (calculate_equity_curve df.close pos),
        (List.range df.n).map pos⟩

/-! ### Claim-side specification of the trade generator (claim C1)

`trades_claim_spec` is written from the claim's words, NOT from the source:
a trade is emitted exactly at the bars where the position differs
(mathematical inequality) from the current position; its pnl is
`(close − entry_price) × current_position` and its hold time the days since
entry when the pre-change position is nonzero, else 0 and 0; entry price
and date are re-based whenever the new position is nonzero.  Only the
fields the claim speaks about (bar, pnl, hold time) are emitted. -/

structure SpecState where
  curr : PFloat
  entryP : PFloat
  entryD : ℤ
  out : List (ℕ × PFloat × ℤ)

/-- one bar of the claim-side trade machine (mathematical `≠`). -/
def spec_trade_step (dates : ℕ → ℤ) (close pos : ℕ → PFloat) (t : ℕ) (s : SpecState) : SpecState :=
  if pos t ≠ s.curr then
    let pnl := if s.curr ≠ PFloat.val 0
      then PFloat.mul (PFloat.sub (close t) s.entryP) s.curr else PFloat.val 0
    let hold : ℤ := if s.curr ≠ PFloat.val 0 then dates t - s.entryD else 0
    if pos t ≠ PFloat.val 0 then
      ⟨pos t, close t, dates t, s.out ++ [(t, pnl, hold)]⟩
    else
      ⟨pos t, s.entryP, s.entryD, s.out ++ [(t, pnl, hold)]⟩
  else s

/-- the claim-side trade list over `n` bars. -/
def trades_claim_spec (n : ℕ) (dates : ℕ → ℤ) (close pos : ℕ → PFloat) : List (ℕ × PFloat × ℤ) :=
  ((List.range n).foldl (fun s t => spec_trade_step dates close pos t s)
    ⟨PFloat.val 0, PFloat.nan, 0, []⟩).out

/-! ### Basic float lemmas

The Batteries library marks the four `Rat` arithmetic operations
`@[irreducible]`; concrete evaluations below (witnesses and
counterexamples, via `decide`) need them to unfold, so they are made
semireducible locally for the rest of this file. -/

attribute [local semireducible] Rat.add Rat.mul Rat.sub Rat.inv Rat.ofScientific

theorem PFloat.add_nan (x : PFloat) : PFloat.add x PFloat.nan = PFloat.nan := by
  cases x <;> rfl

theorem PFloat.nan_add (x : PFloat) : PFloat.add PFloat.nan x = PFloat.nan := by
  cases x <;> rfl

theorem PFloat.mul_nan (x : PFloat) : PFloat.mul x PFloat.nan = PFloat.nan := by
  cases x <;> rfl

theorem PFloat.nan_mul (x : PFloat) : PFloat.mul PFloat.nan x = PFloat.nan := by
  cases x <;> rfl

theorem PFloat.sub_nan (x : PFloat) : PFloat.sub x PFloat.nan = PFloat.nan := by
  cases x <;> rfl

theorem PFloat.nan_sub (x : PFloat) : PFloat.sub PFloat.nan x = PFloat.nan := by
  cases x <;> rfl

theorem PFloat.div_nan (x : PFloat) : PFloat.div x PFloat.nan = PFloat.nan := by
  cases x <;> rfl

theorem PFloat.nan_div (x : PFloat) : PFloat.div PFloat.nan x = PFloat.nan := by
  cases x <;> rfl

theorem PFloat.pyLt_nan_left (x : PFloat) : PFloat.pyLt PFloat.nan x = false := by
  cases x <;> rfl

theorem PFloat.pyLt_nan_right (x : PFloat) : PFloat.pyLt x PFloat.nan = false := by
  cases x <;> rfl

theorem PFloat.pyLt_self (x : PFloat) : PFloat.pyLt x x = false := by
  cases x <;> simp [PFloat.pyLt]

theorem PFloat.pyGt_nan_left (x : PFloat) : PFloat.pyGt PFloat.nan x = false := by
  simp [PFloat.pyGt, PFloat.pyLt_nan_right]

theorem PFloat.pyGt_nan_right (x : PFloat) : PFloat.pyGt x PFloat.nan = false := by
  simp [PFloat.pyGt, PFloat.pyLt_nan_left]

theorem PFloat.mul_val_one (x : PFloat) : PFloat.mul x (PFloat.val 1) = x := by
  cases x <;> simp [PFloat.mul]

/-- elements of a list all strictly negative (in the python sense) make the
IEEE sum strictly negative or `-∞` — in particular never (python-)equal
to 0.  This is the exact-arithmetic fact behind the dead half of the
guard `losing_trades['pnl'].sum() != 0` in `analyze_trades`. -/
theorem PFloat.foldl_add_neg (l : List PFloat)
    (h : ∀ x ∈ l, x = PFloat.ninf ∨ ∃ q : ℚ, q < 0 ∧ x = PFloat.val q)
    (s : PFloat) (hs : s = PFloat.ninf ∨ ∃ q : ℚ, q < 0 ∧ s = PFloat.val q) :
    l.foldl PFloat.add s = PFloat.ninf ∨
      ∃ q : ℚ, q < 0 ∧ l.foldl PFloat.add s = PFloat.val q := by
  induction l generalizing s with
  | nil => simpa using hs
  | cons x xs ih =>
    have hx := h x (List.mem_cons_self x xs)
    have htail : ∀ y ∈ xs, y = PFloat.ninf ∨ ∃ q : ℚ, q < 0 ∧ y = PFloat.val q :=
      fun y hy => h y (List.mem_cons_of_mem x hy)
    have hstep : PFloat.add s x = PFloat.ninf ∨
        ∃ q : ℚ, q < 0 ∧ PFloat.add s x = PFloat.val q := by
      rcases hs with hs | ⟨a, ha, hs⟩ <;> rcases hx with hx | ⟨b, hb, hx⟩ <;> subst hs <;> subst hx
      · exact Or.inl rfl
      · exact Or.inl rfl
      · exact Or.inl rfl
      · exact Or.inr ⟨a + b, by linarith, rfl⟩
    simpa using ih htail (PFloat.add s x) hstep

/-- the sum of a nonempty list of strictly negative floats is python-`!= 0`. -/
theorem PFloat.sum_neg_pyNe_zero (l : List PFloat) (hne : l ≠ [])
    (h : ∀ x ∈ l, PFloat.pyLt x (PFloat.val 0) = true) :
    PFloat.pyNe (PFloat.sum l) (PFloat.val 0) = true := by
  have hshape : ∀ x ∈ l, x = PFloat.ninf ∨ ∃ q : ℚ, q < 0 ∧ x = PFloat.val q := by
    intro x hx
    have := h x hx
    cases x with
    | nan => simp [PFloat.pyLt] at this
    | pinf => simp [PFloat.pyLt] at this
    | ninf => exact Or.inl rfl
    | val q =>
      refine Or.inr ⟨q, ?_, rfl⟩
      simpa [PFloat.pyLt] using this
  cases l with
  | nil => exact absurd rfl hne
  | cons x xs =>
    have hx := hshape x (List.mem_cons_self x xs)
    have hstart : PFloat.add (PFloat.val 0) x = PFloat.ninf ∨
        ∃ q : ℚ, q < 0 ∧ PFloat.add (PFloat.val 0) x = PFloat.val q := by
      rcases hx with hx | ⟨b, hb, hx⟩ <;> subst hx
      · exact Or.inl rfl
      · exact Or.inr ⟨0 + b, by linarith, rfl⟩
    have hres := PFloat.foldl_add_neg xs
      (fun y hy => hshape y (List.mem_cons_of_mem x hy))
      (PFloat.add (PFloat.val 0) x) hstart
    have hsum : PFloat.sum (x :: xs) = xs.foldl PFloat.add (PFloat.add (PFloat.val 0) x) := rfl
    rw [hsum]
    rcases hres with hr | ⟨q, hq, hr⟩ <;> rw [hr]
    · rfl
    · simp [PFloat.pyNe, PFloat.pyEq, ne_of_lt hq]

/-! ### Claims C3, C8, C9, C10 -/

/-- C3 (code bug): the claim — and §4.4 of the spec — demand that a bar with
NaN position be skipped by the trade generator with no state change and no
arithmetic on the NaN.  The code tests `position != current_position`,
which is TRUE for a NaN position, so a NaN bar emits a trade with NaN size,
re-bases the entry, sets `current_position = NaN`, and every subsequent bar
then also trades; the second trade's pnl is computed by multiplying with
the NaN exposure.  Concretely, on 2 bars of close 100 with both positions
NaN the code emits two trades (the claim says zero). -/
theorem generate_trades_nan_position_bug :
    generate_trades 2 (fun t => (t : ℤ)) (fun _ => PFloat.val 100) (fun _ => PFloat.nan) =
      [⟨0, PFloat.val 100, PFloat.nan, false, PFloat.nan, PFloat.val 0, 0⟩,
       ⟨1, PFloat.val 100, PFloat.nan, false, PFloat.nan, PFloat.nan, 1⟩] := by
  decide

/-- C8 counterexample: a single trade with pnl 0 has no losing trade and no
winning trade, so the claim's "otherwise" formula `|sum wins / sum losses|`
applies and evaluates to `|0/0| = NaN`; the code returns `+∞` instead
(its `inf` branch needs only "no losing trades", not "at least one
winning"). -/
theorem analyze_trades_zero_pnl_counterexample :
    (analyze_trades [⟨PFloat.val 0, PFloat.val 0⟩]).profit_factor = PFloat.pinf ∧
    PFloat.abs (PFloat.div (PFloat.val 0) (PFloat.val 0)) = PFloat.nan ∧
    PFloat.pinf ≠ PFloat.nan := by
  decide

/-- C8 (amended): with zero trades all stats are 0; the profit factor is
`+∞` whenever there are NO losing trades (regardless of whether any winning
trade exists); only when at least one losing trade exists does
`profit_factor = |sum wins / sum losses|` apply. -/
theorem analyze_trades_profit_factor_policy :
    (analyze_trades [] =
      ⟨0, PFloat.val 0, PFloat.val 0, PFloat.val 0, PFloat.val 0, PFloat.val 0⟩) ∧
    (∀ trades : List ATrade, trades ≠ [] →
      trades.filter (fun tr => PFloat.pyLt tr.pnl (PFloat.val 0)) = [] →
      (analyze_trades trades).profit_factor = PFloat.pinf) ∧
    (∀ trades : List ATrade,
      trades.filter (fun tr => PFloat.pyLt tr.pnl (PFloat.val 0)) ≠ [] →
      (analyze_trades trades).profit_factor =
        PFloat.abs (PFloat.div
          (sum_skipna ((trades.filter fun tr => PFloat.pyGt tr.pnl (PFloat.val 0)).map ATrade.pnl))
          (sum_skipna ((trades.filter fun tr => PFloat.pyLt tr.pnl (PFloat.val 0)).map ATrade.pnl)))) := by
  refine ⟨rfl, ?_, ?_⟩
  · intro trades hne hlos
    have hlen : ¬ trades.length = 0 := by
      simpa [List.length_eq_zero] using hne
    simp only [analyze_trades, if_neg hlen]
    simp [hlos]
  · intro trades hlos
    have hne : trades ≠ [] := by
      intro h
      subst h
      simp at hlos
    have hlen : ¬ trades.length = 0 := by
      simpa [List.length_eq_zero] using hne
    have hpos : 0 < (trades.filter (fun tr => PFloat.pyLt tr.pnl (PFloat.val 0))).length :=
      List.length_pos.mpr hlos
    have hmapne : (trades.filter (fun tr => PFloat.pyLt tr.pnl (PFloat.val 0))).map ATrade.pnl ≠ [] := by
      simpa [List.map_eq_nil_iff] using hlos
    have hallneg : ∀ x ∈ (trades.filter (fun tr => PFloat.pyLt tr.pnl (PFloat.val 0))).map ATrade.pnl,
        PFloat.pyLt x (PFloat.val 0) = true := by
      intro x hx
      rcases List.mem_map.mp hx with ⟨tr, htr, hpnl⟩
      have := (List.mem_filter.mp htr).2
      simpa [hpnl] using this
    have hnosame : ∀ x ∈ (trades.filter (fun tr => PFloat.pyLt tr.pnl (PFloat.val 0))).map ATrade.pnl,
        ¬ x.isna = true := by
      intro x hx
      have := hallneg x hx
      cases x with
      | nan => simp [PFloat.pyLt] at this
      | pinf => simp [PFloat.isna]
      | ninf => simp [PFloat.isna]
      | val q => simp [PFloat.isna]
    have hsumne : PFloat.pyNe
        (sum_skipna ((trades.filter fun tr => PFloat.pyLt tr.pnl (PFloat.val 0)).map ATrade.pnl))
        (PFloat.val 0) = true := by
      have hfilter_id :
          ((trades.filter fun tr => PFloat.pyLt tr.pnl (PFloat.val 0)).map ATrade.pnl).filter
            (fun v => !v.isna) =
          (trades.filter fun tr => PFloat.pyLt tr.pnl (PFloat.val 0)).map ATrade.pnl := by
        apply List.filter_eq_self.mpr
        intro x hx
        have := hnosame x hx
        simpa using this
      unfold sum_skipna
      rw [hfilter_id]
      exact PFloat.sum_neg_pyNe_zero _ hmapne hallneg
    simp only [analyze_trades, if_neg hlen]
    simp [hpos, hsumne]

/-- C8 witness: the amended profit-factor policy evaluated on concrete trade
lists — one winning trade alone gives `+∞`; one winning and one losing trade
give `|2 / (-1)|`. -/
theorem analyze_trades_profit_factor_policy_witness :
    (analyze_trades [⟨PFloat.val 2, PFloat.val 1⟩]).profit_factor = PFloat.pinf ∧
    (analyze_trades [⟨PFloat.val 2, PFloat.val 1⟩, ⟨PFloat.val (-1), PFloat.val 3⟩]).profit_factor =
      PFloat.abs (PFloat.div
        (sum_skipna (([⟨PFloat.val 2, PFloat.val 1⟩, ⟨PFloat.val (-1), PFloat.val 3⟩] :
          List ATrade).filter (fun tr => PFloat.pyGt tr.pnl (PFloat.val 0)) |>.map ATrade.pnl))
        (sum_skipna (([⟨PFloat.val 2, PFloat.val 1⟩, ⟨PFloat.val (-1), PFloat.val 3⟩] :
          List ATrade).filter (fun tr => PFloat.pyLt tr.pnl (PFloat.val 0)) |>.map ATrade.pnl))) :=
  ⟨analyze_trades_profit_factor_policy.2.1 _ (by decide) (by decide),
   analyze_trades_profit_factor_policy.2.2 _ (by decide)⟩

/-- C9: `run_backtest` reads only the first entry of the symbol → price
table mapping; every other symbol's data is ignored, so the result is the
same whatever follows the first entry. -/
theorem run_backtest_uses_first_symbol (sig : PriceTable → ℕ → PFloat)
    (siz : PriceTable → (ℕ → PFloat) → ℕ → PFloat)
    (sym : String) (df : PriceTable) (rest rest' : List (String × PriceTable)) :
    run_backtest sig siz ((sym, df) :: rest) = run_backtest sig siz ((sym, df) :: rest') := rfl

/-- C10 counterexample: a one-bar equity curve is "too short to compute
returns" (its return series is empty after `dropna`), yet `calculate_metrics`
does NOT fail internally on it: pandas turns the empty-mean/std into NaN, so
the result has NaN annual return rather than the all-zero record the claim
predicts for such inputs. -/
theorem calculate_metrics_short_curve_counterexample :
    dropna (pct_change_list [PFloat.val 1]) = [] ∧
    (calculate_metrics 16 [PFloat.val 1]).annual_return = PFloat.nan ∧
    (calculate_metrics 16 [PFloat.val 1]).annual_return ≠ PFloat.val 0 := by
  decide

/-- C10 (amended): `calculate_metrics` is total (never propagates an
exception); the internal failure caught by its `try/except` — and answered
with the all-zero record — occurs exactly on an EMPTY equity curve (`iloc`
raises).  A curve that is merely too short to compute returns does not
raise: it yields NaN for the mean/std-based metrics (annual return,
volatility, sharpe) and 0 for the rest. -/
theorem calculate_metrics_exception_policy (ann : ℚ) :
    calculate_metrics ann [] =
      ⟨PFloat.val 0, PFloat.val 0, PFloat.val 0, PFloat.val 0,
        PFloat.val 0, PFloat.val 0, PFloat.val 0⟩ ∧
    calculate_metrics ann [PFloat.val 1] =
      ⟨PFloat.val 0, PFloat.nan, PFloat.nan, PFloat.nan,
        PFloat.val 0, PFloat.val 0, PFloat.val 0⟩ := by
  refine ⟨rfl, ?_⟩
  have hstd : std_skipna (dropna (pct_change_list [PFloat.val 1])) = PFloat.nan := by decide
  have hmean : mean_skipna (dropna (pct_change_list [PFloat.val 1])) = PFloat.nan := by decide
  have hsort : calculate_sortino ann (dropna (pct_change_list [PFloat.val 1])) = PFloat.val 0 := by
    have h0 : dropna (pct_change_list [PFloat.val 1]) = [] := by decide
    rw [h0]
    rfl
  simp only [calculate_metrics, hstd, hmean, hsort, PFloat.nan_mul]
  decide

/-! ### Claim C2 — equity curve -/

/-- C2 counterexample: with close series `[1, NaN]` and position series
`[1, +∞]`, the return at bar 1 is NaN, so the claim says the equity freezes
(`equity[1] = equity[0] = 1`).  The code instead fills the NaN return with
0 first, and `∞ × 0 = NaN` makes `equity[1] = NaN`. -/
theorem calculate_equity_curve_counterexample :
    (pct_change 1 (fun t => if t = 0 then PFloat.val 1 else PFloat.nan) 1).isna = true ∧
    calculate_equity_curve (fun t => if t = 0 then PFloat.val 1 else PFloat.nan)
      (fun t => if t = 0 then PFloat.val 1 else PFloat.pinf) 1 = PFloat.nan ∧
    calculate_equity_curve (fun t => if t = 0 then PFloat.val 1 else PFloat.nan)
      (fun t => if t = 0 then PFloat.val 1 else PFloat.pinf) 0 = PFloat.val 1 ∧
    PFloat.nan ≠ PFloat.val 1 := by
  decide

/-- C2 (amended): `equity[0] = 1`, and for `t > 0` the claimed recurrence
`equity[t] = equity[t-1]` frozen on a NaN position or NaN return, else
`equity[t-1] × (1 + position[t] × ret[t])` — provided the position series
never takes the values `±∞` (for an infinite position coinciding with a NaN
return, the code's `fillna(0)` makes `equity[t] = NaN` instead of freezing,
as the counterexample shows).  The third conjunct is the claim's example:
five bars of exact 1% close returns at position 1.0 compound to
`[1, 1.01, 1.0201, 1.030301, 1.04060401]`. -/
theorem calculate_equity_curve_spec (close pos : ℕ → PFloat)
    (hpos : ∀ s, pos s ≠ PFloat.pinf ∧ pos s ≠ PFloat.ninf) :
    calculate_equity_curve close pos 0 = PFloat.val 1 ∧
    (∀ t : ℕ,
      calculate_equity_curve close pos (t + 1) =
        if (pos (t + 1)).isna = true ∨ (pct_change 1 close (t + 1)).isna = true then
          calculate_equity_curve close pos t
        else
          PFloat.mul (calculate_equity_curve close pos t)
            (PFloat.add (PFloat.val 1) (PFloat.mul (pos (t + 1)) (pct_change 1 close (t + 1))))) ∧
    (List.range 5).map
        (calculate_equity_curve (fun t => PFloat.val ((101 / 100 : ℚ) ^ t)) (fun _ => PFloat.val 1)) =
      [PFloat.val 1, PFloat.val (101 / 100), PFloat.val (10201 / 10000),
        PFloat.val (1030301 / 1000000), PFloat.val (104060401 / 100000000)] := by
  refine ⟨rfl, ?_, by decide⟩
  intro t
  by_cases hp : (pos (t + 1)).isna = true
  · rw [if_pos (Or.inl hp)]
    simp only [calculate_equity_curve]
    rw [hp]
    simp
  · have hp' : (pos (t + 1)).isna = false := Bool.eq_false_iff.mpr hp
    by_cases hr : (pct_change 1 close (t + 1)).isna = true
    · rw [if_pos (Or.inr hr)]
      have hfill : returns_filled close (t + 1) = PFloat.val 0 := by
        unfold returns_filled
        rw [if_pos hr]
      simp only [calculate_equity_curve]
      rw [hfill, hp']
      obtain ⟨hpi, hni⟩ := hpos (t + 1)
      cases hcases : pos (t + 1) with
      | nan => rw [hcases] at hp'; simp [PFloat.isna] at hp'
      | pinf => exact absurd hcases hpi
      | ninf => exact absurd hcases hni
      | val p =>
          have h1 : PFloat.mul (PFloat.val p) (PFloat.val 0) = PFloat.val 0 := by
            show PFloat.val (p * 0) = PFloat.val 0
            rw [mul_zero]
          have h2 : PFloat.add (PFloat.val 1) (PFloat.val 0) = PFloat.val 1 := by
            show PFloat.val (1 + 0) = PFloat.val 1
            rw [add_zero]
          simp [PFloat.isna, h1, h2, PFloat.mul_val_one]
    · have hr' : (pct_change 1 close (t + 1)).isna = false := Bool.eq_false_iff.mpr hr
      rw [if_neg (by simp [hp, hr])]
      have hfill : returns_filled close (t + 1) = pct_change 1 close (t + 1) := by
        unfold returns_filled
        rw [if_neg (by simp [hr'])]
      simp only [calculate_equity_curve]
      rw [hfill, hp', hr']
      simp

/-- C2 witness: the amended recurrence applied at the example input (finite
positions), bar 3. -/
theorem calculate_equity_curve_spec_witness :
    calculate_equity_curve (fun t => PFloat.val ((101 / 100 : ℚ) ^ t)) (fun _ => PFloat.val 1) 3 =
      if ((fun (_ : ℕ) => PFloat.val 1) 3).isna = true ∨
          (pct_change 1 (fun t => PFloat.val ((101 / 100 : ℚ) ^ t)) 3).isna = true then
        calculate_equity_curve (fun t => PFloat.val ((101 / 100 : ℚ) ^ t)) (fun _ => PFloat.val 1) 2
      else
        PFloat.mul (calculate_equity_curve (fun t => PFloat.val ((101 / 100 : ℚ) ^ t)) (fun _ => PFloat.val 1) 2)
          (PFloat.add (PFloat.val 1)
            (PFloat.mul ((fun (_ : ℕ) => PFloat.val 1) 3)
              (pct_change 1 (fun t => PFloat.val ((101 / 100 : ℚ) ^ t)) 3))) :=
  (calculate_equity_curve_spec (fun t => PFloat.val ((101 / 100 : ℚ) ^ t)) (fun _ => PFloat.val 1)
    (fun _ => by constructor <;> intro h <;> exact PFloat.noConfusion h)).2.1 2

/-! ### Claim C1 — trade generator vs. its claimed description -/

/-- for non-NaN floats the python `!=` agrees with mathematical
inequality. -/
theorem PFloat.pyNe_true_iff (a b : PFloat) (ha : a.isna = false) (hb : b.isna = false) :
    PFloat.pyNe a b = true ↔ a ≠ b := by
  cases a <;> cases b <;> simp_all [PFloat.pyNe, PFloat.pyEq, PFloat.isna]

/-- python `!=` against `0.0` is the decided mathematical inequality for
non-NaN floats. -/
theorem PFloat.pyNe_zero_decide (a : PFloat) (ha : a.isna = false) :
    PFloat.pyNe a (PFloat.val 0) = decide (a ≠ PFloat.val 0) := by
  have h := PFloat.pyNe_true_iff a (PFloat.val 0) ha rfl
  rcases hbv : PFloat.pyNe a (PFloat.val 0) with _ | _
  · rw [hbv] at h
    have : a = PFloat.val 0 := by
      by_contra hcc
      exact absurd (h.mpr hcc) (by simp)
    simp [this]
  · rw [hbv] at h
    simp [h.mp rfl]

/-- the code's trade machine and the claim's trade machine stay in
lock-step as long as every position value is non-NaN. -/
theorem generate_trades_foldl_refines (dates : ℕ → ℤ) (close pos : ℕ → PFloat)
    (l : List ℕ) :
    ∀ (s : TGState) (s' : SpecState),
      (∀ t ∈ l, (pos t).isna = false) →
      s.current_position.isna = false →
      s.current_position = s'.curr →
      s.entry_price = s'.entryP →
      s.entry_date = s'.entryD →
      s.acc.map (fun tr => (tr.bar, tr.pnl, tr.hold_time)) = s'.out →
      ((l.foldl (fun a t => trade_step dates close pos t a) s).acc.map
          (fun tr => (tr.bar, tr.pnl, tr.hold_time)) =
        (l.foldl (fun a t => spec_trade_step dates close pos t a) s').out) := by
  induction l with
  | nil =>
      intro s s' _ _ _ _ _ hacc
      exact hacc
  | cons t l ih =>
      intro s s' hl hcna hcurr hentp hentd hacc
      have htna : (pos t).isna = false := hl t (List.mem_cons_self t l)
      have hltail : ∀ u ∈ l, (pos u).isna = false := fun u hu => hl u (List.mem_cons_of_mem t hu)
      simp only [List.foldl_cons]
      by_cases hne : pos t = s.current_position
      · have hb : PFloat.pyNe (pos t) s.current_position = false := by
          have h := PFloat.pyNe_true_iff (pos t) s.current_position htna hcna
          rcases hbv : PFloat.pyNe (pos t) s.current_position with _ | _
          · rfl
          · rw [hbv] at h
            exact absurd hne (h.mp rfl)
        have hstep : trade_step dates close pos t s = s := by
          unfold trade_step
          rw [hb]
          simp
        have hstep' : spec_trade_step dates close pos t s' = s' := by
          unfold spec_trade_step
          rw [if_neg (by rw [← hcurr]; simpa using hne)]
        rw [hstep, hstep']
        exact ih s s' hltail hcna hcurr hentp hentd hacc
      · have hb : PFloat.pyNe (pos t) s.current_position = true :=
          (PFloat.pyNe_true_iff (pos t) s.current_position htna hcna).mpr hne
        have hne' : pos t ≠ s'.curr := by rw [← hcurr]; exact hne
        have hpnl :
            (if PFloat.pyNe s.current_position (PFloat.val 0) = true
              then PFloat.mul (PFloat.sub (close t) s.entry_price) s.current_position
              else PFloat.val 0) =
            (if s'.curr ≠ PFloat.val 0
              then PFloat.mul (PFloat.sub (close t) s'.entryP) s'.curr
              else PFloat.val 0) := by
          rw [PFloat.pyNe_zero_decide s.current_position hcna, hcurr, hentp]
          simp only [decide_eq_true_eq]
        have hhold :
            (if PFloat.pyNe s.current_position (PFloat.val 0) = true
              then dates t - s.entry_date else (0 : ℤ)) =
            (if s'.curr ≠ PFloat.val 0 then dates t - s'.entryD else (0 : ℤ)) := by
          rw [PFloat.pyNe_zero_decide s.current_position hcna, hcurr, hentd]
          simp only [decide_eq_true_eq]
        have haccnew :
            (s.acc ++ ([⟨t, close t, PFloat.sub (pos t) s.current_position,
                PFloat.pyGt (pos t) s.current_position, pos t,
                if PFloat.pyNe s.current_position (PFloat.val 0) = true
                  then PFloat.mul (PFloat.sub (close t) s.entry_price) s.current_position
                  else PFloat.val 0,
                if PFloat.pyNe s.current_position (PFloat.val 0) = true
                  then dates t - s.entry_date else 0⟩] : List TradeRec)).map
              (fun tr => (tr.bar, tr.pnl, tr.hold_time)) =
            s'.out ++ [(t,
              if s'.curr ≠ PFloat.val 0
                then PFloat.mul (PFloat.sub (close t) s'.entryP) s'.curr
                else PFloat.val 0,
              if s'.curr ≠ PFloat.val 0 then dates t - s'.entryD else 0)] := by
          rw [List.map_append, hacc]
          simp only [List.map_cons, List.map_nil]
          rw [hpnl, hhold]
        by_cases hz : pos t = PFloat.val 0
        · have hstep : trade_step dates close pos t s =
              ⟨pos t, s.entry_price, s.entry_date,
                s.acc ++ [⟨t, close t, PFloat.sub (pos t) s.current_position,
                  PFloat.pyGt (pos t) s.current_position, pos t,
                  if PFloat.pyNe s.current_position (PFloat.val 0) = true
                    then PFloat.mul (PFloat.sub (close t) s.entry_price) s.current_position
                    else PFloat.val 0,
                  if PFloat.pyNe s.current_position (PFloat.val 0) = true
                    then dates t - s.entry_date else 0⟩]⟩ := by
            unfold trade_step
            rw [hb, if_pos rfl,
              if_neg (by rw [PFloat.pyNe_zero_decide (pos t) htna]; simp [hz])]
          have hstep' : spec_trade_step dates close pos t s' =
              ⟨pos t, s'.entryP, s'.entryD,
                s'.out ++ [(t,
                  if s'.curr ≠ PFloat.val 0
                    then PFloat.mul (PFloat.sub (close t) s'.entryP) s'.curr
                    else PFloat.val 0,
                  if s'.curr ≠ PFloat.val 0 then dates t - s'.entryD else 0)]⟩ := by
            unfold spec_trade_step
            rw [if_pos hne', if_neg (by simp [hz])]
          rw [hstep, hstep']
          exact ih _ _ hltail (by simpa using htna) rfl hentp hentd haccnew
        · have hstep : trade_step dates close pos t s =
              ⟨pos t, close t, dates t,
                s.acc ++ [⟨t, close t, PFloat.sub (pos t) s.current_position,
                  PFloat.pyGt (pos t) s.current_position, pos t,
                  if PFloat.pyNe s.current_position (PFloat.val 0) = true
                    then PFloat.mul (PFloat.sub (close t) s.entry_price) s.current_position
                    else PFloat.val 0,
                  if PFloat.pyNe s.current_position (PFloat.val 0) = true
                    then dates t - s.entry_date else 0⟩]⟩ := by
            unfold trade_step
            rw [hb, if_pos rfl,
              if_pos (by rw [PFloat.pyNe_zero_decide (pos t) htna]; simpa using hz)]
          have hstep' : spec_trade_step dates close pos t s' =
              ⟨pos t, close t, dates t,
                s'.out ++ [(t,
                  if s'.curr ≠ PFloat.val 0
                    then PFloat.mul (PFloat.sub (close t) s'.entryP) s'.curr
                    else PFloat.val 0,
                  if s'.curr ≠ PFloat.val 0 then dates t - s'.entryD else 0)]⟩ := by
            unfold spec_trade_step
            rw [if_pos hne', if_pos hz]
          rw [hstep, hstep']
          exact ih _ _ hltail (by simpa using htna) rfl rfl rfl haccnew

/-- C1: (i) for every close series and NaN-free position series, the trade
generator emits exactly the trades of the claim's description — a trade at
precisely the bars where the position differs from the current position,
with `realized_pnl = (close − entry_price) × current_position` and
`hold_time` = days since entry when the pre-change position is nonzero
(0 and 0 otherwise), and entry re-based on each nonzero new position;
(ii) on positions `[0,0,1,1,0]` with closes `[100,100,105,105,103]` it
emits exactly two trades: bar 3 (index 2) with pnl 0 and hold 0, and bar 5
(index 4) with pnl `(103−105)×1 = −2` and hold the days between the two
bars' dates. -/
theorem generate_trades_matches_claim :
    (∀ (n : ℕ) (dates : ℕ → ℤ) (close pos : ℕ → PFloat),
      (∀ t, (pos t).isna = false) →
      (generate_trades n dates close pos).map (fun tr => (tr.bar, tr.pnl, tr.hold_time)) =
        trades_claim_spec n dates close pos) ∧
    (∀ dates : ℕ → ℤ,
      generate_trades 5 dates
        (fun t => PFloat.val (([100, 100, 105, 105, 103] : List ℚ).getD t 0))
        (fun t => PFloat.val (([0, 0, 1, 1, 0] : List ℚ).getD t 0)) =
      [⟨2, PFloat.val 105, PFloat.val 1, true, PFloat.val 1, PFloat.val 0, 0⟩,
       ⟨4, PFloat.val 103, PFloat.val (-1), false, PFloat.val 0, PFloat.val (-2),
         dates 4 - dates 2⟩]) := by
  constructor
  · intro n dates close pos hnan
    exact generate_trades_foldl_refines dates close pos (List.range n)
      ⟨PFloat.val 0, PFloat.nan, 0, []⟩ ⟨PFloat.val 0, PFloat.nan, 0, []⟩
      (fun t _ => hnan t) rfl rfl rfl rfl rfl
  · intro dates
    unfold generate_trades
    simp only [List.range_succ, List.range_zero, List.nil_append, List.cons_append,
      List.foldl_cons, List.foldl_nil]
    norm_num [trade_step, PFloat.pyNe, PFloat.pyEq, PFloat.pyGt, PFloat.pyLt,
      PFloat.sub, PFloat.add, PFloat.mul, PFloat.neg, List.getD]

/-- C1 witness: the refinement applied on 3 bars of a NaN-free position
series, plus the example at concrete dates `0,1,2,3,4` (the second trade's
hold time is then 2 days). -/
theorem generate_trades_matches_claim_witness :
    ((generate_trades 3 (fun t => (t : ℤ)) (fun _ => PFloat.val 100)
        (fun t => PFloat.val (([0, 1, 0] : List ℚ).getD t 0))).map
      (fun tr => (tr.bar, tr.pnl, tr.hold_time)) =
      trades_claim_spec 3 (fun t => (t : ℤ)) (fun _ => PFloat.val 100)
        (fun t => PFloat.val (([0, 1, 0] : List ℚ).getD t 0))) ∧
    generate_trades 5 (fun t => (t : ℤ))
        (fun t => PFloat.val (([100, 100, 105, 105, 103] : List ℚ).getD t 0))
        (fun t => PFloat.val (([0, 0, 1, 1, 0] : List ℚ).getD t 0)) =
      [⟨2, PFloat.val 105, PFloat.val 1, true, PFloat.val 1, PFloat.val 0, 0⟩,
       ⟨4, PFloat.val 103, PFloat.val (-1), false, PFloat.val 0, PFloat.val (-2), 2⟩] :=
  ⟨generate_trades_matches_claim.1 3 _ _ _ (fun _ => rfl),
   generate_trades_matches_claim.2 (fun t => (t : ℤ))⟩

/-! ### Claim C4 — signal composer -/

/-- `np_sign` only takes the values -1, 0, 1. -/
theorem np_sign_cases (x : ℚ) : np_sign x = -1 ∨ np_sign x = 0 ∨ np_sign x = 1 := by
  unfold np_sign
  split_ifs <;> simp

/-- `|np_sign x| ≤ 1`. -/
theorem np_sign_abs_le_one (x : ℚ) : |np_sign x| ≤ 1 := by
  rcases np_sign_cases x with h | h | h <;> rw [h] <;> norm_num

/-- the category-weight accumulator is monotone from a nonnegative start. -/
theorem total_weight_foldl_nonneg (cats : List (ℚ × List (ℚ × ℚ))) :
    ∀ a : ℚ, 0 ≤ a → (∀ c ∈ cats, 0 ≤ c.1) →
      0 ≤ cats.foldl (fun acc c => acc + c.1) a := by
  induction cats with
  | nil => intro a ha _; simpa using ha
  | cons c cs ih =>
      intro a ha hw
      simp only [List.foldl_cons]
      exact ih (a + c.1) (by have := hw c (List.mem_cons_self c cs); linarith)
        (fun d hd => hw d (List.mem_cons_of_mem c hd))

/-- the weighted signal accumulator is bounded by the weight accumulator. -/
theorem weighted_signal_sum_foldl_bound (cats : List (ℚ × List (ℚ × ℚ))) :
    ∀ a b : ℚ, |a| ≤ b → (∀ c ∈ cats, 0 ≤ c.1) →
      |cats.foldl (fun acc c => acc + category_signal c.2 * c.1) a| ≤
        cats.foldl (fun acc c => acc + c.1) b := by
  induction cats with
  | nil => intro a b hab _; simpa using hab
  | cons c cs ih =>
      intro a b hab hw
      simp only [List.foldl_cons]
      refine ih (a + category_signal c.2 * c.1) (b + c.1) ?_
        (fun d hd => hw d (List.mem_cons_of_mem c hd))
      have hwc : 0 ≤ c.1 := hw c (List.mem_cons_self c cs)
      have h1 : |category_signal c.2 * c.1| ≤ c.1 := by
        rw [abs_mul, abs_of_nonneg hwc]
        calc |category_signal c.2| * c.1 ≤ 1 * c.1 :=
              mul_le_mul_of_nonneg_right (np_sign_abs_le_one _) hwc
          _ = c.1 := one_mul c.1
      calc |a + category_signal c.2 * c.1| ≤ |a| + |category_signal c.2 * c.1| := abs_add _ _
        _ ≤ b + c.1 := add_le_add hab h1

/-- `|weighted_signal_sum| ≤ total_weight` for nonnegative category
weights. -/
theorem weighted_signal_sum_le_total (cats : List (ℚ × List (ℚ × ℚ)))
    (hw : ∀ c ∈ cats, 0 ≤ c.1) :
    |weighted_signal_sum cats| ≤ total_weight cats :=
  weighted_signal_sum_foldl_bound cats 0 0 (by norm_num) hw

/-- C4: for nonnegative category weights, (i) every category signal is the
sign of its weighted rule sum, hence in {-1,0,1}; (ii) when the total
category weight is 0 the composite signal is 0; (iii) when it is positive
the composite is Σ(category_signal × weight) / Σ(weight); (iv) the
composite always lies in [-1, 1]. -/
theorem calculate_signals_composition (cats : List (ℚ × List (ℚ × ℚ)))
    (hw : ∀ c ∈ cats, 0 ≤ c.1) :
    (∀ rules : List (ℚ × ℚ),
      category_signal rules = np_sign (rules.foldl (fun acc r => acc + r.2 * r.1) 0) ∧
      (category_signal rules = -1 ∨ category_signal rules = 0 ∨ category_signal rules = 1)) ∧
    (total_weight cats = 0 → calculate_signals cats = 0) ∧
    (0 < total_weight cats →
      calculate_signals cats = weighted_signal_sum cats / total_weight cats) ∧
    (-1 ≤ calculate_signals cats ∧ calculate_signals cats ≤ 1) := by
  have hbound := weighted_signal_sum_le_total cats hw
  refine ⟨fun rules => ⟨rfl, np_sign_cases _⟩, ?_, ?_, ?_⟩
  · intro h0
    unfold calculate_signals
    rw [if_neg (by rw [h0]; exact lt_irrefl 0)]
    have : |weighted_signal_sum cats| ≤ 0 := by rw [← h0]; exact hbound
    have := abs_nonneg (weighted_signal_sum cats)
    have habs : |weighted_signal_sum cats| = 0 := le_antisymm ‹_› ‹_›
    exact abs_eq_zero.mp habs
  · intro hpos
    unfold calculate_signals
    rw [if_pos hpos]
  · by_cases hpos : 0 < total_weight cats
    · unfold calculate_signals
      rw [if_pos hpos]
      have habs : |weighted_signal_sum cats / total_weight cats| ≤ 1 := by
        rw [abs_div, abs_of_pos hpos]
        exact (div_le_one hpos).mpr hbound
      exact abs_le.mp habs
    · have h0 : total_weight cats = 0 := by
        have hnn : 0 ≤ total_weight cats := total_weight_foldl_nonneg cats 0 le_rfl hw
        linarith [lt_or_eq_of_le hnn]
      unfold calculate_signals
      rw [if_neg hpos]
      have : |weighted_signal_sum cats| ≤ 0 := by rw [← h0]; exact hbound
      have habs : |weighted_signal_sum cats| = 0 :=
        le_antisymm this (abs_nonneg _)
      rw [abs_eq_zero.mp habs]
      norm_num

/-- C4 witness: two categories of weights 2 and 1; the first's rules cancel
(sign 0), the second's rule sum is positive (sign 1); the composite is in
[-1,1] and equals the weighted average 1/3. -/
theorem calculate_signals_composition_witness :
    (total_weight [((2 : ℚ), [((1 : ℚ), (1 : ℚ)), (1, -1)]), (1, [(3, 1)])] = 0 →
      calculate_signals [((2 : ℚ), [((1 : ℚ), (1 : ℚ)), (1, -1)]), (1, [(3, 1)])] = 0) ∧
    (-1 ≤ calculate_signals [((2 : ℚ), [((1 : ℚ), (1 : ℚ)), (1, -1)]), (1, [(3, 1)])] ∧
      calculate_signals [((2 : ℚ), [((1 : ℚ), (1 : ℚ)), (1, -1)]), (1, [(3, 1)])] ≤ 1) :=
  ⟨(calculate_signals_composition _ (by decide)).2.1,
   (calculate_signals_composition _ (by decide)).2.2.2⟩

/-! ### Claim C5 — division by zero / NaN volatility in sizing -/

/-- `isna` characterizes the NaN constructor. -/
theorem PFloat.isna_iff (x : PFloat) : x.isna = true ↔ x = PFloat.nan := by
  cases x <;> simp [PFloat.isna]

/-- C5 counterexample: three bars of constant close 100 make the rolling
volatility of bar 3 exactly 0 (std of two zero returns).  With signal 1,
`target_vol/vol = +∞`, and clipping turns the infinite position into the
finite value `max_size = 0.3` — not the NaN the claim demands for a
zero-volatility bar. -/
theorem volatility_targeting_zero_vol_counterexample :
    vol_estimate 2 16 (fun _ => PFloat.val 100) 2 = PFloat.val 0 ∧
    volatility_targeting_positions 2 16 (1 / 5) (3 / 10)
      (fun _ => PFloat.val 100) (fun _ => PFloat.val 1) 2 = PFloat.val (3 / 10) ∧
    PFloat.val (3 / 10) ≠ PFloat.nan := by
  decide

/-- C5 (amended): a NaN volatility/ATR bar does yield a NaN position under
all three dividing methods (volatility_targeting, equal_risk,
inverse_volatility).  A ZERO volatility bar does not: the division gives a
signed infinity (NaN only for signal 0 via 0 × ∞), and for the clipped
volatility_targeting method a positive signal lands on the finite value
`max_size`. -/
theorem sizing_nan_vol_policy :
    (∀ (lookback : ℕ) (ann tv ms : ℚ) (close sig : ℕ → PFloat) (t : ℕ),
      (vol_estimate lookback ann close t).isna = true →
      volatility_targeting_positions lookback ann tv ms close sig t = PFloat.nan) ∧
    (∀ (ap : ℕ) (rp : ℚ) (high low close sig : ℕ → PFloat) (t : ℕ),
      (atr_estimate ap high low close t).isna = true →
      equal_risk_positions ap rp high low close sig t = PFloat.nan) ∧
    (∀ (n lookback : ℕ) (ann ms : ℚ) (close sig : ℕ → PFloat) (t : ℕ),
      (vol_estimate lookback ann close t).isna = true →
      inverse_volatility_positions n lookback ann ms close sig t = PFloat.nan) ∧
    (∀ (lookback : ℕ) (ann tv ms : ℚ) (close sig : ℕ → PFloat) (t : ℕ) (s : ℚ),
      vol_estimate lookback ann close t = PFloat.val 0 →
      sig t = PFloat.val s → 0 < s → 0 < tv → 0 ≤ ms →
      volatility_targeting_positions lookback ann tv ms close sig t = PFloat.val ms) := by
  refine ⟨?_, ?_, ?_, ?_⟩
  · intro lookback ann tv ms close sig t h
    have hv := (PFloat.isna_iff _).mp h
    unfold volatility_targeting_positions
    rw [hv, PFloat.div_nan, PFloat.mul_nan]
    rfl
  · intro ap rp high low close sig t h
    have hv := (PFloat.isna_iff _).mp h
    unfold equal_risk_positions
    rw [hv, PFloat.nan_div, PFloat.div_nan, PFloat.mul_nan]
  · intro n lookback ann ms close sig t h
    have hv := (PFloat.isna_iff _).mp h
    unfold inverse_volatility_positions
    rw [hv, PFloat.div_nan, PFloat.mul_nan, PFloat.nan_div]
    rfl
  · intro lookback ann tv ms close sig t s hv hs hspos htv hms
    unfold volatility_targeting_positions
    rw [hv, hs]
    have hdiv : PFloat.div (PFloat.val tv) (PFloat.val 0) = PFloat.pinf := by
      show (if (0 : ℚ) = 0 then (if 0 < tv then PFloat.pinf else if tv < 0 then PFloat.ninf
        else PFloat.nan) else PFloat.val (tv / 0)) = PFloat.pinf
      simp [htv]
    rw [hdiv]
    have hmul : PFloat.mul (PFloat.val s) PFloat.pinf = PFloat.pinf := by
      show (if 0 < s then PFloat.pinf else if s < 0 then PFloat.ninf else PFloat.nan) = PFloat.pinf
      simp [hspos]
    rw [hmul]
    rfl

/-- C5 witness: each conjunct of the NaN/zero-volatility policy applied at
a concrete bar — bar 0 has NaN volatility/ATR (unfilled windows), and bar 2
of a constant close series has volatility exactly 0. -/
theorem sizing_nan_vol_policy_witness :
    volatility_targeting_positions 2 16 (1 / 5) (3 / 10)
      (fun _ => PFloat.val 100) (fun _ => PFloat.val 1) 0 = PFloat.nan ∧
    equal_risk_positions 2 (1 / 100) (fun _ => PFloat.val 101) (fun _ => PFloat.val 99)
      (fun _ => PFloat.val 100) (fun _ => PFloat.val 1) 0 = PFloat.nan ∧
    inverse_volatility_positions 3 2 16 (3 / 10)
      (fun _ => PFloat.val 100) (fun _ => PFloat.val 1) 0 = PFloat.nan ∧
    volatility_targeting_positions 2 16 (1 / 5) (3 / 10)
      (fun _ => PFloat.val 100) (fun _ => PFloat.val 1) 2 = PFloat.val (3 / 10) :=
  ⟨sizing_nan_vol_policy.1 2 16 (1 / 5) (3 / 10) _ _ 0 (by decide),
   sizing_nan_vol_policy.2.1 2 (1 / 100) _ _ _ _ 0 (by decide),
   sizing_nan_vol_policy.2.2.1 3 2 16 (3 / 10) _ _ 0 (by decide),
   sizing_nan_vol_policy.2.2.2 2 16 (1 / 5) (3 / 10) _ _ 2 1 (by decide) rfl
     (by norm_num) (by norm_num) (by norm_num)⟩

/-! ### Claim C6 — flat-signal invariant -/

theorem PFloat.zero_mul_pinf : PFloat.mul (PFloat.val 0) PFloat.pinf = PFloat.nan := by
  simp [PFloat.mul]

theorem PFloat.zero_mul_ninf : PFloat.mul (PFloat.val 0) PFloat.ninf = PFloat.nan := by
  simp [PFloat.mul]

/-- summing a list of finite floats from a finite start stays finite. -/
theorem PFloat.foldl_add_vals (l : List PFloat) :
    ∀ a : ℚ, (∀ v ∈ l, ∃ q : ℚ, v = PFloat.val q) →
      ∃ q : ℚ, l.foldl PFloat.add (PFloat.val a) = PFloat.val q := by
  induction l with
  | nil => intro a _; exact ⟨a, rfl⟩
  | cons v vs ih =>
      intro a hv
      obtain ⟨q, hq⟩ := hv v (List.mem_cons_self v vs)
      simp only [List.foldl_cons, hq]
      exact ih (a + q) (fun u hu => hv u (List.mem_cons_of_mem v hu))

/-- a rolling std is never infinite: NaN or a finite value. -/
theorem rollingStd_shape (w : ℕ) (x : ℕ → PFloat) (t : ℕ) :
    rollingStd w x t = PFloat.nan ∨ ∃ q : ℚ, rollingStd w x t = PFloat.val q := by
  unfold rollingStd
  split_ifs
  · exact Or.inl rfl
  · exact Or.inr ⟨_, rfl⟩

/-- the annualized volatility estimate is NaN or finite. -/
theorem vol_estimate_shape (lookback : ℕ) (ann : ℚ) (close : ℕ → PFloat) (t : ℕ) :
    vol_estimate lookback ann close t = PFloat.nan ∨
      ∃ q : ℚ, vol_estimate lookback ann close t = PFloat.val q := by
  unfold vol_estimate
  rcases rollingStd_shape lookback (pct_change 1 close) t with h | ⟨q, h⟩ <;> rw [h]
  · exact Or.inl (PFloat.nan_mul _)
  · exact Or.inr ⟨q * ann, rfl⟩

/-- with finite highs, lows and closes the true range is always finite
(on the first bar the NaN columns are skipped by the row max). -/
theorem true_range_val (high low close : ℕ → PFloat)
    (hh : ∀ u, ∃ q : ℚ, high u = PFloat.val q)
    (hl : ∀ u, ∃ q : ℚ, low u = PFloat.val q)
    (hc : ∀ u, ∃ q : ℚ, close u = PFloat.val q) (t : ℕ) :
    ∃ q : ℚ, true_range high low close t = PFloat.val q := by
  obtain ⟨h, hh'⟩ := hh t
  obtain ⟨l, hl'⟩ := hl t
  unfold true_range
  by_cases ht : t = 0
  · subst ht
    rw [hh', hl']
    show ∃ q, max3skipna (PFloat.val (h + -l))
      (PFloat.abs (PFloat.sub (PFloat.val h) PFloat.nan))
      (PFloat.abs (PFloat.sub (PFloat.val l) PFloat.nan)) = PFloat.val q
    rw [PFloat.sub_nan, PFloat.sub_nan]
    exact ⟨h + -l, rfl⟩
  · obtain ⟨c, hc'⟩ := hc (t - 1)
    have hsh : shift1 close t = PFloat.val c := by
      unfold shift1
      rw [if_neg ht, hc']
    rw [hh', hl', hsh]
    show ∃ q, max3skipna (PFloat.val (h + -l)) (PFloat.val |h + -c|) (PFloat.val |l + -c|) =
      PFloat.val q
    have hred : max3skipna (PFloat.val (h + -l)) (PFloat.val |h + -c|) (PFloat.val |l + -c|) =
        [PFloat.val |h + -c|, PFloat.val |l + -c|].foldl PFloat.pfMax (PFloat.val (h + -l)) := rfl
    rw [hred]
    simp only [List.foldl_cons, List.foldl_nil]
    unfold PFloat.pfMax
    split_ifs <;> exact ⟨_, rfl⟩

/-- a rolling mean of an everywhere-finite series is NaN or finite. -/
theorem rollingMean_shape (w : ℕ) (x : ℕ → PFloat)
    (hx : ∀ u, ∃ q : ℚ, x u = PFloat.val q) (t : ℕ) :
    rollingMean w x t = PFloat.nan ∨ ∃ q : ℚ, rollingMean w x t = PFloat.val q := by
  unfold rollingMean
  split_ifs with h
  · exact Or.inl rfl
  · right
    have hwin : ∀ v ∈ rwindow w x t, ∃ q : ℚ, v = PFloat.val q := by
      intro v hv
      unfold rwindow at hv
      rcases List.mem_map.mp hv with ⟨i, _, hi⟩
      rw [← hi]
      exact hx _
    obtain ⟨S, hS⟩ := PFloat.foldl_add_vals (rwindow w x t) 0 hwin
    have hw0 : ¬ w = 0 := fun hc => h (Or.inl hc)
    show ∃ q, PFloat.div (PFloat.sum (rwindow w x t)) (PFloat.val w) = PFloat.val q
    unfold PFloat.sum
    rw [hS]
    have : ((w : ℚ)) ≠ 0 := Nat.cast_ne_zero.mpr hw0
    show ∃ q, (if (w : ℚ) = 0 then _ else PFloat.val (S / w)) = PFloat.val q
    rw [if_neg this]
    exact ⟨S / w, rfl⟩

/-- with finite highs/lows/closes the equal-risk ATR is NaN or finite. -/
theorem atr_estimate_shape (ap : ℕ) (high low close : ℕ → PFloat)
    (hh : ∀ u, ∃ q : ℚ, high u = PFloat.val q)
    (hl : ∀ u, ∃ q : ℚ, low u = PFloat.val q)
    (hc : ∀ u, ∃ q : ℚ, close u = PFloat.val q) (t : ℕ) :
    atr_estimate ap high low close t = PFloat.nan ∨
      ∃ q : ℚ, atr_estimate ap high low close t = PFloat.val q :=
  rollingMean_shape ap (true_range high low close)
    (true_range_val high low close hh hl hc) t

/-- positions that are everywhere 0 generate no trades. -/
theorem generate_trades_zero_positions (n : ℕ) (dates : ℕ → ℤ) (close pos : ℕ → PFloat)
    (hp : ∀ t, pos t = PFloat.val 0) :
    generate_trades n dates close pos = [] := by
  unfold generate_trades
  suffices h : ∀ l : List ℕ,
      l.foldl (fun s t => trade_step dates close pos t s)
        ⟨PFloat.val 0, PFloat.nan, 0, []⟩ = ⟨PFloat.val 0, PFloat.nan, 0, []⟩ by
    rw [h]
  intro l
  induction l with
  | nil => rfl
  | cons t l ih =>
      simp only [List.foldl_cons]
      have hstep : trade_step dates close pos t ⟨PFloat.val 0, PFloat.nan, 0, []⟩ =
          ⟨PFloat.val 0, PFloat.nan, 0, []⟩ := by
        unfold trade_step
        rw [hp t]
        simp [PFloat.pyNe, PFloat.pyEq]
      rw [hstep, ih]

/-- positions that are everywhere 0 or NaN leave the equity curve frozen at
1.0, given positive finite closes. -/
theorem calculate_equity_curve_constant_one (close pos : ℕ → PFloat)
    (hc : ∀ u, ∃ q : ℚ, 0 < q ∧ close u = PFloat.val q)
    (hp : ∀ u, pos u = PFloat.val 0 ∨ pos u = PFloat.nan) :
    ∀ t, calculate_equity_curve close pos t = PFloat.val 1 := by
  intro t
  induction t with
  | zero => rfl
  | succ t ih =>
      simp only [calculate_equity_curve]
      rcases hp (t + 1) with h | h
      · obtain ⟨q1, hq1, hc1⟩ := hc (t + 1)
        obtain ⟨q0, hq0, hc0⟩ := hc t
        have hpc : pct_change 1 close (t + 1) = PFloat.val (q1 / q0 + -1) := by
          unfold pct_change
          rw [if_neg (by omega)]
          have ht1 : t + 1 - 1 = t := rfl
          rw [ht1, hc1, hc0]
          show PFloat.sub (if q0 = 0 then _ else PFloat.val (q1 / q0)) (PFloat.val 1) = _
          rw [if_neg (ne_of_gt hq0)]
          rfl
        have hret : returns_filled close (t + 1) = PFloat.val (q1 / q0 + -1) := by
          unfold returns_filled
          rw [hpc]
          rfl
        have e1 : PFloat.mul (PFloat.val 0) (PFloat.val (q1 / q0 + -1)) = PFloat.val 0 := by
          show PFloat.val (0 * (q1 / q0 + -1)) = PFloat.val 0
          rw [zero_mul]
        have e2 : PFloat.add (PFloat.val 1) (PFloat.val 0) = PFloat.val 1 := by
          show PFloat.val (1 + 0) = PFloat.val 1
          rw [add_zero]
        rw [h, hret, ih]
        simp [PFloat.isna, e1, e2, PFloat.mul_val_one]
      · rw [h, ih]
        simp [PFloat.isna]

/-- on a flat (all-zero) signal, volatility targeting gives position 0 at
bars with a defined nonzero volatility and NaN at bars whose volatility is
NaN (unfilled window) or 0 (`0 × ∞`). -/
theorem vt_positions_zero_or_nan (lookback : ℕ) (ann tv ms : ℚ) (close sig : ℕ → PFloat)
    (hsig : ∀ u, sig u = PFloat.val 0) (hms : 0 ≤ ms) (t : ℕ) :
    volatility_targeting_positions lookback ann tv ms close sig t = PFloat.val 0 ∨
    volatility_targeting_positions lookback ann tv ms close sig t = PFloat.nan := by
  unfold volatility_targeting_positions
  rw [hsig t]
  rcases vol_estimate_shape lookback ann close t with h | ⟨v, h⟩ <;> rw [h]
  · rw [PFloat.div_nan, PFloat.mul_nan]
    exact Or.inr rfl
  · by_cases hv : v = 0
    · subst hv
      right
      have hdiv : PFloat.div (PFloat.val tv) (PFloat.val 0) =
          (if 0 < tv then PFloat.pinf else if tv < 0 then PFloat.ninf else PFloat.nan) := by
        show (if (0 : ℚ) = 0 then (if 0 < tv then PFloat.pinf else if tv < 0 then PFloat.ninf
          else PFloat.nan) else PFloat.val (tv / 0)) = _
        rw [if_pos rfl]
      rw [hdiv]
      split_ifs
      · rw [PFloat.zero_mul_pinf]
        rfl
      · rw [PFloat.zero_mul_ninf]
        rfl
      · rw [PFloat.mul_nan]
        rfl
    · left
      have hd : PFloat.div (PFloat.val tv) (PFloat.val v) = PFloat.val (tv / v) := by
        show (if v = 0 then _ else PFloat.val (tv / v)) = _
        rw [if_neg hv]
      rw [hd]
      have hm : PFloat.mul (PFloat.val 0) (PFloat.val (tv / v)) = PFloat.val 0 := by
        show PFloat.val (0 * (tv / v)) = PFloat.val 0
        rw [zero_mul]
      rw [hm]
      show PFloat.val (min ms (max (-ms) 0)) = PFloat.val 0
      rw [max_eq_right (by linarith), min_eq_right hms]

/-- on a flat signal, equal-risk sizing gives position 0 at bars with a
defined nonzero ATR and NaN at NaN-ATR or zero-ATR bars. -/
theorem er_positions_zero_or_nan (ap : ℕ) (rp : ℚ) (high low close sig : ℕ → PFloat)
    (hh : ∀ u, ∃ q : ℚ, high u = PFloat.val q)
    (hl : ∀ u, ∃ q : ℚ, low u = PFloat.val q)
    (hc : ∀ u, ∃ q : ℚ, 0 < q ∧ close u = PFloat.val q)
    (hsig : ∀ u, sig u = PFloat.val 0) (t : ℕ) :
    equal_risk_positions ap rp high low close sig t = PFloat.val 0 ∨
    equal_risk_positions ap rp high low close sig t = PFloat.nan := by
  unfold equal_risk_positions
  rw [hsig t]
  obtain ⟨c, hcpos, hc'⟩ := hc t
  have hcv : ∀ u, ∃ q : ℚ, close u = PFloat.val q := fun u => ⟨(hc u).choose, (hc u).choose_spec.2⟩
  rcases atr_estimate_shape ap high low close hh hl hcv t with h | ⟨a, h⟩ <;> rw [h, hc']
  · rw [PFloat.nan_div, PFloat.div_nan, PFloat.mul_nan]
    exact Or.inr rfl
  · have hac : PFloat.div (PFloat.val a) (PFloat.val c) = PFloat.val (a / c) := by
      show (if c = 0 then _ else PFloat.val (a / c)) = _
      rw [if_neg (ne_of_gt hcpos)]
    rw [hac]
    by_cases ha0 : a / c = 0
    · rw [ha0]
      right
      have hdiv : PFloat.div (PFloat.val rp) (PFloat.val 0) =
          (if 0 < rp then PFloat.pinf else if rp < 0 then PFloat.ninf else PFloat.nan) := by
        show (if (0 : ℚ) = 0 then (if 0 < rp then PFloat.pinf else if rp < 0 then PFloat.ninf
          else PFloat.nan) else PFloat.val (rp / 0)) = _
        rw [if_pos rfl]
      rw [hdiv]
      split_ifs
      · exact PFloat.zero_mul_pinf
      · exact PFloat.zero_mul_ninf
      · exact PFloat.mul_nan _
    · left
      have hd : PFloat.div (PFloat.val rp) (PFloat.val (a / c)) = PFloat.val (rp / (a / c)) := by
        show (if a / c = 0 then _ else PFloat.val (rp / (a / c))) = _
        rw [if_neg ha0]
      rw [hd]
      show PFloat.val (0 * (rp / (a / c))) = PFloat.val 0
      rw [zero_mul]

/-- C6 counterexample: closes constant at 100 and a signal that is 0 at
every bar, under volatility targeting (lookback 2).  The position at bar 1
is NaN, not 0 (`0 × NaN` during volatility warm-up), and the generated
trade list over 3 bars is NOT empty — the NaN position triggers the trade
generator's python `!=`. -/
theorem flat_signal_counterexample :
    volatility_targeting_positions 2 16 (1 / 5) (3 / 10)
      (fun _ => PFloat.val 100) (fun _ => PFloat.val 0) 0 = PFloat.nan ∧
    volatility_targeting_positions 2 16 (1 / 5) (3 / 10)
      (fun _ => PFloat.val 100) (fun _ => PFloat.val 0) 0 ≠ PFloat.val 0 ∧
    generate_trades 3 (fun t => (t : ℤ)) (fun _ => PFloat.val 100)
      (volatility_targeting_positions 2 16 (1 / 5) (3 / 10)
        (fun _ => PFloat.val 100) (fun _ => PFloat.val 0)) ≠ [] := by
  decide

/-- C6 (amended): with an all-zero composite signal and positive finite
prices, (i) `fixed_percentage` and (ii) `kelly_criterion` give the claimed
invariant in full — all positions 0, no trades, equity constant 1.0;
(iii) `volatility_targeting` and (iv) `equal_risk` keep the equity curve
constant at 1.0, but their positions are only 0-or-NaN (NaN at warm-up or
zero-volatility/ATR bars), and the NaN bars make the trade list non-empty
(see the counterexample), so the claim's "positions all 0, trades empty"
fails for them. -/
theorem flat_signal_invariant_amended :
    (∀ (n : ℕ) (dates : ℕ → ℤ) (ps : ℚ) (close sig : ℕ → PFloat),
      (∀ u, sig u = PFloat.val 0) →
      (∀ u, ∃ q : ℚ, 0 < q ∧ close u = PFloat.val q) →
      (∀ t, fixed_percentage_positions ps sig t = PFloat.val 0) ∧
      generate_trades n dates close (fixed_percentage_positions ps sig) = [] ∧
      (∀ t, calculate_equity_curve close (fixed_percentage_positions ps sig) t = PFloat.val 1)) ∧
    (∀ (n : ℕ) (dates : ℕ → ℤ) (wr pr ms : ℚ) (close sig : ℕ → PFloat),
      (∀ u, sig u = PFloat.val 0) →
      (∀ u, ∃ q : ℚ, 0 < q ∧ close u = PFloat.val q) →
      (∀ t, kelly_criterion_positions wr pr ms sig t = PFloat.val 0) ∧
      generate_trades n dates close (kelly_criterion_positions wr pr ms sig) = [] ∧
      (∀ t, calculate_equity_curve close (kelly_criterion_positions wr pr ms sig) t = PFloat.val 1)) ∧
    (∀ (lookback : ℕ) (ann tv ms : ℚ) (close sig : ℕ → PFloat),
      (∀ u, sig u = PFloat.val 0) →
      (∀ u, ∃ q : ℚ, 0 < q ∧ close u = PFloat.val q) →
      0 ≤ ms →
      (∀ t, volatility_targeting_positions lookback ann tv ms close sig t = PFloat.val 0 ∨
        volatility_targeting_positions lookback ann tv ms close sig t = PFloat.nan) ∧
      (∀ t, calculate_equity_curve close
        (volatility_targeting_positions lookback ann tv ms close sig) t = PFloat.val 1)) ∧
    (∀ (ap : ℕ) (rp : ℚ) (high low close sig : ℕ → PFloat),
      (∀ u, sig u = PFloat.val 0) →
      (∀ u, ∃ q : ℚ, high u = PFloat.val q) →
      (∀ u, ∃ q : ℚ, low u = PFloat.val q) →
      (∀ u, ∃ q : ℚ, 0 < q ∧ close u = PFloat.val q) →
      (∀ t, equal_risk_positions ap rp high low close sig t = PFloat.val 0 ∨
        equal_risk_positions ap rp high low close sig t = PFloat.nan) ∧
      (∀ t, calculate_equity_curve close
        (equal_risk_positions ap rp high low close sig) t = PFloat.val 1)) := by
  refine ⟨?_, ?_, ?_, ?_⟩
  · intro n dates ps close sig hsig hc
    have hzero : ∀ t, fixed_percentage_positions ps sig t = PFloat.val 0 := by
      intro t
      unfold fixed_percentage_positions
      rw [hsig t]
      show PFloat.val (0 * ps) = PFloat.val 0
      rw [zero_mul]
    exact ⟨hzero, generate_trades_zero_positions n dates close _ hzero,
      calculate_equity_curve_constant_one close _ hc (fun u => Or.inl (hzero u))⟩
  · intro n dates wr pr ms close sig hsig hc
    have hzero : ∀ t, kelly_criterion_positions wr pr ms sig t = PFloat.val 0 := by
      intro t
      unfold kelly_criterion_positions
      rw [hsig t]
      show PFloat.val (0 * min (kelly_fraction wr pr * (1 / 2)) ms) = PFloat.val 0
      rw [zero_mul]
    exact ⟨hzero, generate_trades_zero_positions n dates close _ hzero,
      calculate_equity_curve_constant_one close _ hc (fun u => Or.inl (hzero u))⟩
  · intro lookback ann tv ms close sig hsig hc hms
    have hshape := vt_positions_zero_or_nan lookback ann tv ms close sig hsig hms
    exact ⟨hshape, calculate_equity_curve_constant_one close _ hc hshape⟩
  · intro ap rp high low close sig hsig hh hl hc
    have hshape := er_positions_zero_or_nan ap rp high low close sig hh hl hc hsig
    exact ⟨hshape, calculate_equity_curve_constant_one close _ hc hshape⟩

/-- C6 witness: the four amended conjuncts at concrete inputs (constant
close 100, zero signal). -/
theorem flat_signal_invariant_amended_witness :
    generate_trades 3 (fun t => (t : ℤ)) (fun _ => PFloat.val 100)
      (fixed_percentage_positions (1 / 100) (fun _ => PFloat.val 0)) = [] ∧
    calculate_equity_curve (fun _ => PFloat.val 100)
      (kelly_criterion_positions (3 / 5) 2 (3 / 10) (fun _ => PFloat.val 0)) 2 = PFloat.val 1 ∧
    (volatility_targeting_positions 2 16 (1 / 5) (3 / 10)
        (fun _ => PFloat.val 100) (fun _ => PFloat.val 0) 2 = PFloat.val 0 ∨
      volatility_targeting_positions 2 16 (1 / 5) (3 / 10)
        (fun _ => PFloat.val 100) (fun _ => PFloat.val 0) 2 = PFloat.nan) ∧
    calculate_equity_curve (fun _ => PFloat.val 100)
      (equal_risk_positions 2 (1 / 100) (fun _ => PFloat.val 101) (fun _ => PFloat.val 99)
        (fun _ => PFloat.val 100) (fun _ => PFloat.val 0)) 1 = PFloat.val 1 :=
  ⟨(flat_signal_invariant_amended.1 3 (fun t => (t : ℤ)) (1 / 100) _ _
      (fun _ => rfl) (fun _ => ⟨100, by norm_num, rfl⟩)).2.1,
   ((flat_signal_invariant_amended.2.1 3 (fun t => (t : ℤ)) (3 / 5) 2 (3 / 10) _ _
      (fun _ => rfl) (fun _ => ⟨100, by norm_num, rfl⟩)).2.2) 2,
   ((flat_signal_invariant_amended.2.2.1 2 16 (1 / 5) (3 / 10) _ _
      (fun _ => rfl) (fun _ => ⟨100, by norm_num, rfl⟩) (by norm_num)).1) 2,
   ((flat_signal_invariant_amended.2.2.2 2 (1 / 100) _ _ _ _
      (fun _ => rfl) (fun _ => ⟨101, rfl⟩) (fun _ => ⟨99, rfl⟩)
      (fun _ => ⟨100, by norm_num, rfl⟩)).2) 1⟩

/-! ### Claim C7 — rule warm-up bars give signal 0 -/

theorem pct_change_nan_of_lt (k : ℕ) (x : ℕ → PFloat) (t : ℕ) (h : t < k) :
    pct_change k x t = PFloat.nan := by
  unfold pct_change
  rw [if_pos h]

theorem mem_rwindow (w : ℕ) (x : ℕ → PFloat) (t i : ℕ) (hi : i < w) :
    x (t + 1 - w + i) ∈ rwindow w x t := by
  unfold rwindow
  exact List.mem_map.mpr ⟨i, List.mem_range.mpr hi, rfl⟩

theorem rollingMean_nan_of_lt (w : ℕ) (x : ℕ → PFloat) (t : ℕ) (h : t + 1 < w) :
    rollingMean w x t = PFloat.nan := by
  unfold rollingMean
  rw [if_pos (Or.inr (Or.inl h))]

theorem rollingMean_nan_of_mem (w : ℕ) (x : ℕ → PFloat) (t : ℕ) (v : PFloat)
    (hv : v ∈ rwindow w x t) (hnan : v.isna = true) :
    rollingMean w x t = PFloat.nan := by
  unfold rollingMean
  rw [if_pos (Or.inr (Or.inr (List.any_eq_true.mpr ⟨v, hv, hnan⟩)))]

theorem rollingStd_nan_of_le_one (w : ℕ) (x : ℕ → PFloat) (t : ℕ) (h : w ≤ 1) :
    rollingStd w x t = PFloat.nan := by
  unfold rollingStd
  rw [if_pos (Or.inl h)]

theorem rollingStd_nan_of_lt (w : ℕ) (x : ℕ → PFloat) (t : ℕ) (h : t + 1 < w) :
    rollingStd w x t = PFloat.nan := by
  unfold rollingStd
  rw [if_pos (Or.inr (Or.inl h))]

theorem rollingStd_nan_of_mem (w : ℕ) (x : ℕ → PFloat) (t : ℕ) (v : PFloat)
    (hv : v ∈ rwindow w x t) (hnan : v.isna = true) :
    rollingStd w x t = PFloat.nan := by
  unfold rollingStd
  refine if_pos (Or.inr (Or.inr (List.any_eq_true.mpr ⟨v, hv, ?_⟩)))
  rw [(PFloat.isna_iff v).mp hnan]
  rfl

theorem rollingMax_nan_of_lt (w : ℕ) (x : ℕ → PFloat) (t : ℕ) (h : t + 1 < w) :
    rollingMax w x t = PFloat.nan := by
  unfold rollingMax
  rw [if_pos (Or.inr (Or.inl h))]

theorem rollingMin_nan_of_lt (w : ℕ) (x : ℕ → PFloat) (t : ℕ) (h : t + 1 < w) :
    rollingMin w x t = PFloat.nan := by
  unfold rollingMin
  rw [if_pos (Or.inr (Or.inl h))]

/-- the rolling mean over unfilled-or-NaN-contaminated warm-up: for
`t < 2·lookback − 1`, a window over a series whose first `lookback` values
are NaN is NaN. -/
theorem rollingMean_pct_warmup (l : ℕ) (close : ℕ → PFloat) (t : ℕ)
    (hl : 1 ≤ l) (ht : t < 2 * l - 1) :
    rollingMean l (pct_change l close) t = PFloat.nan := by
  by_cases hw : t + 1 < l
  · exact rollingMean_nan_of_lt l _ t hw
  · have hj : t + 1 - l < l := by omega
    have hmem : pct_change l close (t + 1 - l) ∈ rwindow l (pct_change l close) t := by
      have := mem_rwindow l (pct_change l close) t 0 (by omega)
      simpa using this
    refine rollingMean_nan_of_mem l _ t _ hmem ?_
    rw [pct_change_nan_of_lt l close _ hj]
    rfl

/-- the volatility estimate is NaN on every bar `s < lookback` (the return
series starts with a NaN and the std window is not yet filled with non-NaN
values). -/
theorem vol_estimate_warmup (l : ℕ) (ann : ℚ) (close : ℕ → PFloat) (s : ℕ)
    (hs : s < l) :
    vol_estimate l ann close s = PFloat.nan := by
  unfold vol_estimate
  have hstd : rollingStd l (pct_change 1 close) s = PFloat.nan := by
    rcases le_or_lt l 1 with h1 | h1
    · exact rollingStd_nan_of_le_one l _ s h1
    · by_cases hw : s + 1 < l
      · exact rollingStd_nan_of_lt l _ s hw
      · have hj : s + 1 - l = 0 := by omega
        have hmem : pct_change 1 close (s + 1 - l) ∈ rwindow l (pct_change 1 close) s := by
          have := mem_rwindow l (pct_change 1 close) s 0 (by omega)
          simpa using this
        refine rollingStd_nan_of_mem l _ s _ hmem ?_
        rw [hj, pct_change_nan_of_lt 1 close 0 (by omega)]
        rfl
  rw [hstd, PFloat.nan_mul]

theorem PFloat.pyLt_nan_left_ne (x : PFloat) : ¬ PFloat.pyLt PFloat.nan x = true := by
  rw [PFloat.pyLt_nan_left]
  exact Bool.false_ne_true

theorem PFloat.pyLt_nan_right_ne (x : PFloat) : ¬ PFloat.pyLt x PFloat.nan = true := by
  rw [PFloat.pyLt_nan_right]
  exact Bool.false_ne_true

theorem PFloat.pyGt_nan_left_ne (x : PFloat) : ¬ PFloat.pyGt PFloat.nan x = true := by
  rw [PFloat.pyGt_nan_left]
  exact Bool.false_ne_true

theorem PFloat.pyGt_nan_right_ne (x : PFloat) : ¬ PFloat.pyGt x PFloat.nan = true := by
  rw [PFloat.pyGt_nan_right]
  exact Bool.false_ne_true

theorem PFloat.pyLt_self_ne (x : PFloat) : ¬ PFloat.pyLt x x = true := by
  rw [PFloat.pyLt_self]
  exact Bool.false_ne_true

theorem PFloat.pyGt_self_ne (x : PFloat) : ¬ PFloat.pyGt x x = true := by
  unfold PFloat.pyGt
  exact PFloat.pyLt_self_ne x

/-- C7: every rule of the rule library returns raw signal 0 on the bars
that lack sufficient lookback history, for every price series and
parameters: zscore for `t < 2·lookback−1`, roc for `t < lookback`,
channel / support-resistance / atr-breakout for `t+1 < lookback`,
sma-crossover for `t+1 < max(fast,slow)`, ema-crossover at its only
seed bar `t = 0` (the exponential mean needs no warm-up, both means
coincide there), and volatility-regime for `t < 2·lookback−1`.  In the
embedding every rule is a total function, so no such bar can raise. -/
theorem rule_library_warmup_zero :
    (∀ (l : ℕ) (θ : ℚ) (close : ℕ → PFloat) (t : ℕ), 1 ≤ l → t < 2 * l - 1 →
      calculate_zscore_momentum l θ close t = 0) ∧
    (∀ (l : ℕ) (θ : ℚ) (close : ℕ → PFloat) (t : ℕ), t < l →
      calculate_roc l θ close t = 0) ∧
    (∀ (l : ℕ) (w : ℚ) (high low close : ℕ → PFloat) (t : ℕ), t + 1 < l →
      calculate_channel_breakout l w high low close t = 0) ∧
    (∀ (l : ℕ) (θ : ℚ) (high low close : ℕ → PFloat) (t : ℕ), t + 1 < l →
      calculate_support_resistance l θ high low close t = 0) ∧
    (∀ (f s : ℕ) (close : ℕ → PFloat) (t : ℕ), t + 1 < max f s →
      calculate_sma_crossover f s close t = 0) ∧
    (∀ (f s : ℕ) (close : ℕ → PFloat) (t : ℕ), t < 1 →
      calculate_ema_crossover f s close t = 0) ∧
    (∀ (l : ℕ) (m : ℚ) (high low close : ℕ → PFloat) (t : ℕ), t + 1 < l →
      calculate_atr_breakout l m high low close t = 0) ∧
    (∀ (l : ℕ) (θ ann : ℚ) (close : ℕ → PFloat) (t : ℕ), 1 ≤ l → t < 2 * l - 1 →
      calculate_volatility_regime l θ ann close t = 0) := by
  refine ⟨?_, ?_, ?_, ?_, ?_, ?_, ?_, ?_⟩
  · intro l θ close t hl ht
    simp only [calculate_zscore_momentum]
    rw [rollingMean_pct_warmup l close t hl ht]
    simp only [PFloat.nan_add, PFloat.add_nan, PFloat.nan_sub, PFloat.sub_nan,
      PFloat.nan_mul, PFloat.mul_nan, PFloat.nan_div, PFloat.div_nan]
    simp [PFloat.pyLt_nan_left, PFloat.pyLt_nan_right, PFloat.pyGt_nan_left,
      PFloat.pyGt_nan_right]
  · intro l θ close t ht
    simp only [calculate_roc]
    rw [pct_change_nan_of_lt l close t ht]
    simp only [PFloat.nan_add, PFloat.add_nan, PFloat.nan_sub, PFloat.sub_nan,
      PFloat.nan_mul, PFloat.mul_nan, PFloat.nan_div, PFloat.div_nan]
    simp [PFloat.pyLt_nan_left, PFloat.pyLt_nan_right, PFloat.pyGt_nan_left,
      PFloat.pyGt_nan_right]
  · intro l w high low close t ht
    simp only [calculate_channel_breakout]
    rw [rollingMax_nan_of_lt l high t ht]
    simp only [PFloat.nan_add, PFloat.add_nan, PFloat.nan_sub, PFloat.sub_nan,
      PFloat.nan_mul, PFloat.mul_nan, PFloat.nan_div, PFloat.div_nan]
    simp [PFloat.pyLt_nan_left, PFloat.pyLt_nan_right, PFloat.pyGt_nan_left,
      PFloat.pyGt_nan_right]
  · intro l θ high low close t ht
    simp only [calculate_support_resistance]
    rw [rollingMax_nan_of_lt l high t ht, rollingMin_nan_of_lt l low t ht]
    simp only [PFloat.nan_add, PFloat.add_nan, PFloat.nan_sub, PFloat.sub_nan,
      PFloat.nan_mul, PFloat.mul_nan, PFloat.nan_div, PFloat.div_nan]
    simp [PFloat.pyLt_nan_left, PFloat.pyLt_nan_right, PFloat.pyGt_nan_left,
      PFloat.pyGt_nan_right]
  · intro f s close t ht
    simp only [calculate_sma_crossover]
    rcases lt_max_iff.mp ht with hf | hs
    · rw [rollingMean_nan_of_lt f close t hf]
      simp [PFloat.pyLt_nan_left, PFloat.pyLt_nan_right, PFloat.pyGt_nan_left,
        PFloat.pyGt_nan_right]
    · rw [rollingMean_nan_of_lt s close t hs]
      simp [PFloat.pyLt_nan_left, PFloat.pyLt_nan_right, PFloat.pyGt_nan_left,
        PFloat.pyGt_nan_right]
  · intro f s close t ht
    have ht0 : t = 0 := by omega
    subst ht0
    simp only [calculate_ema_crossover]
    have hf : ewm_mean f close 0 = close 0 := rfl
    have hs : ewm_mean s close 0 = close 0 := rfl
    rw [hf, hs]
    simp [PFloat.pyLt_self, PFloat.pyGt]
  · intro l m high low close t ht
    simp only [calculate_atr_breakout]
    rw [rollingMean_nan_of_lt l close t ht]
    simp only [PFloat.nan_add, PFloat.add_nan, PFloat.nan_sub, PFloat.sub_nan,
      PFloat.nan_mul, PFloat.mul_nan, PFloat.nan_div, PFloat.div_nan]
    simp [PFloat.pyLt_nan_left, PFloat.pyLt_nan_right, PFloat.pyGt_nan_left,
      PFloat.pyGt_nan_right]
  · intro l θ ann close t hl ht
    simp only [calculate_volatility_regime]
    have havg : rollingMean l (vol_estimate l ann close) t = PFloat.nan := by
      by_cases hw : t + 1 < l
      · exact rollingMean_nan_of_lt l _ t hw
      · have hj : t + 1 - l < l := by omega
        have hmem : vol_estimate l ann close (t + 1 - l) ∈
            rwindow l (vol_estimate l ann close) t := by
          have := mem_rwindow l (vol_estimate l ann close) t 0 (by omega)
          simpa using this
        refine rollingMean_nan_of_mem l _ t _ hmem ?_
        rw [vol_estimate_warmup l ann close _ hj]
        rfl
    rw [havg]
    simp only [PFloat.nan_add, PFloat.add_nan, PFloat.nan_sub, PFloat.sub_nan,
      PFloat.nan_mul, PFloat.mul_nan, PFloat.nan_div, PFloat.div_nan]
    simp [PFloat.pyLt_nan_left, PFloat.pyLt_nan_right, PFloat.pyGt_nan_left,
      PFloat.pyGt_nan_right]

/-- C7 witness: each rule evaluated on a concrete warm-up bar of a concrete
price series, giving raw signal 0. -/
theorem rule_library_warmup_zero_witness :
    calculate_zscore_momentum 2 (1 / 2) (fun _ => PFloat.val 100) 2 = 0 ∧
    calculate_roc 2 (1 / 2) (fun _ => PFloat.val 100) 1 = 0 ∧
    calculate_channel_breakout 3 (1 / 2) (fun _ => PFloat.val 101) (fun _ => PFloat.val 99)
      (fun _ => PFloat.val 100) 1 = 0 ∧
    calculate_support_resistance 3 (1 / 2) (fun _ => PFloat.val 101) (fun _ => PFloat.val 99)
      (fun _ => PFloat.val 100) 1 = 0 ∧
    calculate_sma_crossover 2 3 (fun _ => PFloat.val 100) 1 = 0 ∧
    calculate_ema_crossover 2 3 (fun _ => PFloat.val 100) 0 = 0 ∧
    calculate_atr_breakout 3 (3 / 2) (fun _ => PFloat.val 101) (fun _ => PFloat.val 99)
      (fun _ => PFloat.val 100) 1 = 0 ∧
    calculate_volatility_regime 2 2 16 (fun _ => PFloat.val 100) 2 = 0 :=
  ⟨rule_library_warmup_zero.1 2 (1 / 2) _ 2 (by omega) (by omega),
   rule_library_warmup_zero.2.1 2 (1 / 2) _ 1 (by omega),
   rule_library_warmup_zero.2.2.1 3 (1 / 2) _ _ _ 1 (by omega),
   rule_library_warmup_zero.2.2.2.1 3 (1 / 2) _ _ _ 1 (by omega),
   rule_library_warmup_zero.2.2.2.2.1 2 3 _ 1 (by simp),
   rule_library_warmup_zero.2.2.2.2.2.1 2 3 _ 0 (by omega),
   rule_library_warmup_zero.2.2.2.2.2.2.1 3 (3 / 2) _ _ _ 1 (by omega),
   rule_library_warmup_zero.2.2.2.2.2.2.2 2 2 16 _ 2 (by omega) (by omega)⟩
